import Mathlib

/-!
Shallow embedding of the dominant-color extractor in `src/extract-colors.c`
(histogram-free sampling, KMeans++ initialization, weighted Lloyd clustering
with empty-cluster recovery, perceptual merging, serialization, and the
WebAssembly entry point).  Machine floating-point arithmetic is embedded as
exact rational arithmetic; machine integers are embedded as `Int`/`Nat`.
The serial (non-SIMD, non-OpenMP) compilation path is the one modelled, and
heap allocation success is threaded explicitly as boolean oracles, matching
the C functions' `malloc`-failure branches.
-/

namespace ExtractColors

/-- An RGBA8 pixel: four byte channels, row-major in the buffer. -/
structure Pixel where
  r : ℕ
  g : ℕ
  b : ℕ
  a : ℕ
deriving DecidableEq, Repr

instance : Inhabited Pixel := ⟨⟨0, 0, 0, 0⟩⟩

/-- `RGBf` of the C file: a normalized color triple (each channel in [0,1]);
the C `float` channels are embedded as exact rationals. -/
structure RGB where
  r : ℚ
  g : ℚ
  b : ℚ
deriving DecidableEq, Repr

instance : Inhabited RGB := ⟨⟨0, 0, 0⟩⟩

/-- `Cluster` of the C file: a centroid and an accumulated weight. -/
structure Cluster where
  color : RGB
  weight : ℚ
deriving DecidableEq, Repr

instance : Inhabited Cluster := ⟨⟨default, 0⟩⟩

/-- `ColorAgg` of the C file: a merged output color, its (area) weight and
its cached HSL triple. -/
structure ColorAgg where
  color : RGB
  weight : ℚ
  h : ℚ
  s : ℚ
  l : ℚ
deriving DecidableEq, Repr

instance : Inhabited ColorAgg := ⟨⟨default, 0, 0, 0, 0⟩⟩

/-- `Options` of the C file. -/
structure Options where
  pixels : ℤ
  distance : ℚ
  satDist : ℚ
  lightDist : ℚ
  hueDist : ℚ
  alphaThreshold : ℤ
  maxColors : ℤ
deriving DecidableEq, Repr

/-- The CLI defaults set in `main`. -/
def defaultOptions : Options :=
  { pixels := 64000
    distance := 22/100
    satDist := 2/10
    lightDist := 2/10
    hueDist := 83333333/1000000000
    alphaThreshold := 250
    maxColors := 16 }

/-- `clampd` of the C file. -/
def clampd (x lo hi : ℚ) : ℚ :=
  if x < lo then lo else if x > hi then hi else x

/-- `rgb_to_hsl` of the C file: RGB (0..1) to (hue, saturation, lightness),
hue in [0,1), saturation and lightness in [0,1]. -/
def rgb_to_hsl (r g b : ℚ) : ℚ × ℚ × ℚ :=
  let maxv := max r (max g b)
  let minv := min r (min g b)
  let lval := (maxv + minv) / 2
  if maxv = minv then (0, 0, lval)
  else
    let d := maxv - minv
    let sval := if lval > 1/2 then d / (2 - maxv - minv) else d / (maxv + minv)
    let hval :=
      if maxv = r then (g - b) / d + (if g < b then 6 else 0)
      else if maxv = g then (b - r) / d + 2
      else (r - g) / d + 4
    (hval / 6, sval, lval)

/-- `hue_arc_dist` of the C file: shortest arc around the hue circle. -/
def hue_arc_dist (h1 h2 : ℚ) : ℚ :=
  let d := |h1 - h2|
  if d > 1/2 then 1 - d else d

/-- `rgb_dist2_raw` of the C file: squared Euclidean RGB distance. -/
def rgb_dist2_raw (a b : RGB) : ℚ :=
  (a.r - b.r) ^ 2 + (a.g - b.g) ^ 2 + (a.b - b.b) ^ 2

/-! ## Sampling (the collection loop of `extract_colors_core`) -/

/-- The indices `0, step, 2*step, …` that a C loop
`for (v = 0; v < limit; v += step)` visits. -/
def strideIdx (limit step : ℕ) : List ℕ :=
  (List.range ((limit + step - 1) / step)).map (· * step)

/-- The inclusion test of the sampling loop: the C code skips a pixel with
`a <= opt->alphaThreshold` (`continue`), so a pixel is included exactly when
its alpha strictly exceeds the threshold. -/
def pixelIncluded (thr : ℤ) (p : Pixel) : Bool :=
  !((p.a : ℤ) ≤ thr)

/-- Byte channel to normalized channel, `(float)v * (1.0f/255.0f)` embedded
exactly. -/
def pixToRGB (p : Pixel) : RGB :=
  ⟨(p.r : ℚ) / 255, (p.g : ℚ) / 255, (p.b : ℚ) / 255⟩

/-- The sample-collection double loop of `extract_colors_core` (lines
804–822): visit the stride grid row-major, skip pixels whose alpha is not
above the threshold, and push one normalized RGB sample per surviving
pixel.  `buf i` is the pixel at flat index `i = y*w + x`. -/
def collectSamples (buf : ℕ → Pixel) (w h step : ℕ) (thr : ℤ) : List RGB :=
  (strideIdx h step).flatMap fun y =>
    (strideIdx w step).filterMap fun x =>
      let p := buf (y * w + x)
      if (p.a : ℤ) ≤ thr then none
      else some (pixToRGB p)

/-- The pixels the sampling loop visits, in visit order (row-major over the
stride grid), before any alpha filtering. -/
def visitedPixels (buf : ℕ → Pixel) (w h step : ℕ) : List Pixel :=
  (strideIdx h step).flatMap fun y =>
    (strideIdx w step).map fun x => buf (y * w + x)

/-! ## The histogram sampler described by the specification

The spec (§4.1 steps 3–5) describes a quantizing histogram sampler.  The
following two definitions follow the spec's words (not the C code, which has
no histogram), so the spec's description can be compared with
`collectSamples` above. -/

/-- Spec-side 5-bit bucket key: each channel quantized by
`floor(value * 32 / 256)`, the three levels combined into one key. -/
def specBucketKey (p : Pixel) : ℕ :=
  (p.r * 32 / 256) * 1024 + (p.g * 32 / 256) * 32 + (p.b * 32 / 256)

/-- The distinct values of a key list in first-occurrence order. -/
def dedupKeys (l : List ℕ) : List ℕ :=
  l.foldl (fun acc k => if k ∈ acc then acc else acc ++ [k]) []

/-- Spec-side histogram sampler: count surviving pixels per 32³ bucket and
emit one weighted sample per non-empty bucket, channels `level / 31` and
weight the bucket's raw pixel count.  (The non-empty buckets are exactly
the keys occurring among the surviving pixels; the spec leaves the bucket
enumeration order immaterial, and first-occurrence order is used here.) -/
def specHistogramSamples (buf : ℕ → Pixel) (w h step : ℕ) (thr : ℤ) :
    List (RGB × ℕ) :=
  let survivors := (visitedPixels buf w h step).filter (pixelIncluded thr)
  (dedupKeys (survivors.map specBucketKey)).map fun key =>
    let cnt := (survivors.filter fun p => specBucketKey p = key).length
    let r5 := key / 1024
    let g5 := key / 32 % 32
    let b5 := key % 32
    (⟨(r5 : ℚ) / 31, (g5 : ℚ) / 31, (b5 : ℚ) / 31⟩, cnt)

/-! ## Perceptual merging (`merge_colors`) -/

/-- One insertion of descending-by-weight insertion sort. -/
def insertDesc (c : Cluster) : List Cluster → List Cluster
  | [] => [c]
  | d :: rest => if d.weight < c.weight then c :: d :: rest else d :: insertDesc c rest

/-- The `qsort(..., cmp_cluster_weight_desc)` call of `merge_colors`:
a descending-by-weight sort (`qsort` leaves the order of equal weights
unspecified; this embedding keeps equal weights stable). -/
def sortClustersDesc (l : List Cluster) : List Cluster :=
  l.foldr insertDesc []

/-- The merge test of the inner loop of `merge_colors` (lines 726–731): the
squared-RGB criterion `rgb_dist2_raw <= distance^2 * 3` or the simultaneous
strict HSL criterion. -/
def mergeMatch (opt : Options) (c : RGB) (hi si li : ℚ) (a : ColorAgg) : Bool :=
  decide (rgb_dist2_raw c a.color ≤ opt.distance ^ 2 * 3) ||
    (decide (|si - a.s| < opt.satDist) && decide (|li - a.l| < opt.lightDist) &&
      decide (hue_arc_dist hi a.h < opt.hueDist))

/-- The in-place merge of a cluster `(c, w)` into aggregate `a`
(lines 733–743): weighted-average color when the summed weight is positive,
weight summed, cached HSL recomputed from the new color. -/
def mergeInto (a : ColorAgg) (c : RGB) (w : ℚ) : ColorAgg :=
  let tw := a.weight + w
  let col : RGB :=
    if tw > 0 then
      ⟨(a.color.r * a.weight + c.r * w) / tw,
       (a.color.g * a.weight + c.g * w) / tw,
       (a.color.b * a.weight + c.b * w) / tw⟩
    else a.color
  let hsl := rgb_to_hsl col.r col.g col.b
  { color := col, weight := tw, h := hsl.1, s := hsl.2.1, l := hsl.2.2 }

/-- The inner `j` loop of `merge_colors`: scan the accepted aggregates in
order, merge into the first match and stop (`break`), `none` when no
aggregate matches. -/
def tryMerge (opt : Options) (c : RGB) (w hi si li : ℚ) :
    List ColorAgg → Option (List ColorAgg)
  | [] => none
  | a :: rest =>
    if mergeMatch opt c hi si li a then some (mergeInto a c w :: rest)
    else (tryMerge opt c w hi si li rest).map (a :: ·)

/-- The outer `i` loop of `merge_colors`: skip non-positive weights, merge
into the first matching aggregate, else append a new aggregate carrying the
cluster's own HSL. -/
def mergeFold (opt : Options) : List ColorAgg → List Cluster → List ColorAgg
  | acc, [] => acc
  | acc, cl :: rest =>
    if cl.weight ≤ 0 then mergeFold opt acc rest
    else
      let hsl := rgb_to_hsl cl.color.r cl.color.g cl.color.b
      match tryMerge opt cl.color cl.weight hsl.1 hsl.2.1 hsl.2.2 acc with
      | some acc2 => mergeFold opt acc2 rest
      | none =>
        mergeFold opt
          (acc ++ [{ color := cl.color, weight := cl.weight,
                     h := hsl.1, s := hsl.2.1, l := hsl.2.2 }]) rest

/-- `merge_colors` of the C file: sort descending by weight, fold the merge
loop, then normalize each aggregate weight to an area fraction (zero when
`totalWeight` is not positive). -/
def merge_colors (clusters : List Cluster) (totalWeight : ℚ) (opt : Options) :
    List ColorAgg :=
  let acc := mergeFold opt [] (sortClustersDesc clusters)
  acc.map fun a =>
    { a with weight := if totalWeight > 0 then a.weight / totalWeight else 0 }

/-! ## Weighted Lloyd clustering (`kmeans_run`, serial path)

The per-sample and per-cluster arrays of the C function (`assign`, `bestd2`,
`sr`/`sg`/`sb`, the cluster weights) are embedded as functions from indices;
only indices below the sample count `n` (resp. cluster count `K`) are ever
read. -/

/-- The starting `best = 1e300` of the nearest-centroid scan (any value
larger than every possible squared distance behaves identically). -/
def bigStart : ℚ := 10 ^ 300

/-- The nearest-centroid scan of the assignment phase (lines 435–444):
first index attaining the minimal squared distance, together with that
distance (`best` starts at `1e300`, `bi` at `0`, strict `<` keeps the
earliest minimum). -/
def nearestIdx (cs : List Cluster) (s : RGB) : ℕ × ℚ :=
  (List.range cs.length).foldl
    (fun acc k =>
      let d := rgb_dist2_raw s (cs.getD k default).color
      if d < acc.2 then (k, d) else acc)
    (0, bigStart)

/-- The mutable state of one `kmeans_run` iteration: per-cluster weights and
channel sums, per-sample assignment and best squared distance, and the
`changed` flag. -/
structure PassState where
  weights : ℕ → ℚ
  sr : ℕ → ℚ
  sg : ℕ → ℚ
  sb : ℕ → ℚ
  assign : ℕ → ℤ
  bestd2 : ℕ → ℚ
  changed : Bool

/-- One sample of the assignment phase (lines 376–455, serial path): find
the nearest centroid, record its squared distance, flag a reassignment, and
accumulate the sample into the chosen cluster's sums and weight. -/
def assignStep (samples : List RGB) (cs : List Cluster) (st : PassState)
    (i : ℕ) : PassState :=
  let s := samples.getD i default
  let nb := nearestIdx cs s
  let bi := nb.1
  { weights := Function.update st.weights bi (st.weights bi + 1)
    sr := Function.update st.sr bi (st.sr bi + s.r)
    sg := Function.update st.sg bi (st.sg bi + s.g)
    sb := Function.update st.sb bi (st.sb bi + s.b)
    assign := Function.update st.assign i (bi : ℤ)
    bestd2 := Function.update st.bestd2 i nb.2
    changed := st.changed || decide (st.assign i ≠ (bi : ℤ)) }

/-- The assignment phase: accumulators reset to zero, then every sample
processed in order. -/
def assignPass (samples : List RGB) (cs : List Cluster) (asn : ℕ → ℤ) :
    PassState :=
  (List.range samples.length).foldl (assignStep samples cs)
    { weights := fun _ => 0, sr := fun _ => 0, sg := fun _ => 0,
      sb := fun _ => 0, assign := asn, bestd2 := fun _ => 0, changed := false }

/-- The farthest-sample scan of the empty-cluster reset (lines 463–472):
`farIdx` starts at `-1`, `farD2` at `-1`, strict `>` keeps the earliest
maximum of `bestd2` over the first `n` samples. -/
def findFarthest (d : ℕ → ℚ) (n : ℕ) : ℤ × ℚ :=
  (List.range n).foldl
    (fun acc i => if d i > acc.2 then ((i : ℤ), d i) else acc)
    (-1, -1)

/-- One cluster of the empty-cluster reset loop (lines 458–491): a cluster
whose accumulated weight is not positive steals the sample farthest from its
assigned centroid, moving that sample's contribution from its old cluster
(weight decremented only while positive) to the empty one and marking the
round changed. -/
def resetStep (samples : List RGB) (K : ℕ) (st : PassState) (k : ℕ) :
    PassState :=
  if st.weights k > 0 then st
  else
    let far := findFarthest st.bestd2 samples.length
    if far.1 ≥ 0 then
      let f := far.1.toNat
      let s := samples.getD f default
      let old := st.assign f
      let st1 :=
        if 0 ≤ old ∧ old < (K : ℤ) then
          let o := old.toNat
          { st with
            sr := Function.update st.sr o (st.sr o - s.r)
            sg := Function.update st.sg o (st.sg o - s.g)
            sb := Function.update st.sb o (st.sb o - s.b)
            weights :=
              if st.weights o > 0 then
                Function.update st.weights o (st.weights o - 1)
              else st.weights }
        else st
      { st1 with
        assign := Function.update st1.assign f (k : ℤ)
        sr := Function.update st1.sr k (st1.sr k + s.r)
        sg := Function.update st1.sg k (st1.sg k + s.g)
        sb := Function.update st1.sb k (st1.sb k + s.b)
        weights := Function.update st1.weights k (st1.weights k + 1)
        changed := true }
    else st

/-- The update phase (lines 494–506): a cluster with positive weight moves
its centroid to the accumulated mean; a cluster still empty keeps its
centroid; every cluster's weight becomes the accumulated weight. -/
def updateCenters (cs : List Cluster) (st : PassState) : List Cluster :=
  (List.range cs.length).map fun k =>
    if st.weights k > 0 then
      ⟨⟨st.sr k / st.weights k, st.sg k / st.weights k,
        st.sb k / st.weights k⟩, st.weights k⟩
    else ⟨(cs.getD k default).color, st.weights k⟩

/-- One Assign → Reset-Empty → Update iteration of `kmeans_run`, returning
the new clusters, the new assignment and the `changed` flag. -/
def kmeansIter (samples : List RGB) (cs : List Cluster) (asn : ℕ → ℤ) :
    List Cluster × (ℕ → ℤ) × Bool :=
  let st0 := assignPass samples cs asn
  let st1 := (List.range cs.length).foldl (resetStep samples cs.length) st0
  (updateCenters cs st1, st1.assign, st1.changed)

/-- The iteration loop of `kmeans_run` (`for (it = 0; it < iters; ++it)`
with `if (!changed) break;`): returns the final clusters and the number of
iterations that executed. -/
def kmeansLoop (samples : List RGB) :
    ℕ → List Cluster → (ℕ → ℤ) → List Cluster × ℕ
  | 0, cs, _ => (cs, 0)
  | Nat.succ fuel, cs, asn =>
    let r := kmeansIter samples cs asn
    if r.2.2 then
      let rest := kmeansLoop samples fuel r.1 r.2.1
      (rest.1, rest.2 + 1)
    else (r.1, 1)

/-- The allocation oracle for `kmeans_run`'s intermediate buffers: `assign`;
the `sr`/`sg`/`sb` group; the `cr`/`cg`/`cb`/`bestd2` group.  A failed
group makes the C function free what it allocated and return with the
clusters untouched. -/
structure KAlloc where
  assignOk : Bool
  sumsOk : Bool
  auxOk : Bool
deriving DecidableEq, Repr

/-- The all-allocations-succeed oracle. -/
def kallocOk : KAlloc := ⟨true, true, true⟩

/-- `kmeans_run` of the C file (serial path): guards on empty input, then
either returns the clusters unchanged on an allocation failure, or runs up
to `iters` Assign → Reset-Empty → Update iterations with the assignment
array initialized to `-1`. -/
def kmeans_run (al : KAlloc) (samples : List RGB) (cs : List Cluster)
    (iters : ℕ) : List Cluster × ℕ :=
  if samples.length = 0 ∨ cs.length = 0 then (cs, 0)
  else if al.assignOk = false ∨ al.sumsOk = false ∨ al.auxOk = false then
    (cs, 0)
  else kmeansLoop samples iters cs (fun _ => -1)

/-! ## KMeans++ initialization (`kmeans_pp_init`) -/

/-- `RAND_MAX` of the C library on the modelled platform. -/
def RAND_MAX_C : ℕ := 2147483647

/-- The cumulative-sum pick of `kmeans_pp_init` (lines 282–292): first
index whose running sum of `dist2` reaches `r`; `idx` stays `0` when the
scan falls through. -/
def ppPickAux (r : ℚ) : ℕ → ℚ → List ℚ → ℕ
  | _, _, [] => 0
  | i, acc, d :: rest =>
    if acc + d ≥ r then i else ppPickAux r (i + 1) (acc + d) rest

/-- The nearest-distance refresh of `kmeans_pp_init` (lines 296–301):
each sample keeps the smaller of its recorded squared distance and its
squared distance to the newly chosen center. -/
def ppUpdateDist2 (samples : List RGB) (dist2 : List ℚ) (c : RGB) : List ℚ :=
  samples.zipWith (fun s d => min d (rgb_dist2_raw s c)) dist2

/-- The fallback picks of `kmeans_pp_init` when its `dist2` buffer cannot be
allocated: uniform random samples, weight zero. -/
def ppFallback (samples : List RGB) (rnd : ℕ → ℕ) (t0 count : ℕ) :
    List Cluster :=
  (List.range count).map fun j =>
    ⟨samples.getD (rnd (t0 + j) % samples.length) default, 0⟩

/-- The main `k = 1 .. K-1` loop of `kmeans_pp_init`: a zero
weighted-squared-distance sum falls back to one uniform pick (leaving
`dist2` untouched, as the C `continue` does); otherwise a proportional draw
`(rand()/RAND_MAX) * sum` selects the next center and `dist2` is refreshed.
`rnd` is the stream of `rand()` results, `t` the index of the next draw. -/
def ppMain (samples : List RGB) (rnd : ℕ → ℕ) :
    ℕ → ℕ → List ℚ → List Cluster → List Cluster
  | 0, _, _, acc => acc
  | Nat.succ fuel, t, dist2, acc =>
    let n := samples.length
    let sum := dist2.sum
    if sum ≤ 0 then
      ppMain samples rnd fuel (t + 1) dist2
        (acc ++ [⟨samples.getD (rnd t % n) default, 0⟩])
    else
      let rv := rnd t % (RAND_MAX_C + 1)
      let r := ((rv : ℚ) / (RAND_MAX_C : ℚ)) * sum
      let idx := ppPickAux r 0 0 dist2
      let c := samples.getD idx default
      ppMain samples rnd fuel (t + 1) (ppUpdateDist2 samples dist2 c)
        (acc ++ [⟨c, 0⟩])

/-- `kmeans_pp_init` of the C file: uniform first center, then KMeans++
picks (or uniform fallback picks when the `dist2` buffer allocation fails,
`ppOk = false`).  Every produced cluster has weight `0`. -/
def kmeans_pp_init (ppOk : Bool) (samples : List RGB) (K : ℕ)
    (rnd : ℕ → ℕ) : List Cluster :=
  if samples.length = 0 ∨ K = 0 then []
  else
    let n := samples.length
    let c0 : Cluster := ⟨samples.getD (rnd 0 % n) default, 0⟩
    if ppOk = false then c0 :: ppFallback samples rnd 1 (K - 1)
    else
      let dist2 := samples.map fun s => rgb_dist2_raw s c0.color
      ppMain samples rnd (K - 1) 1 dist2 [c0]

/-! ## The core pipeline (`extract_colors_core`) -/

/-- `⌈Real.sqrt m⌉` for a natural `m`, computably. -/
def ceilSqrtNat (m : ℕ) : ℕ :=
  if Nat.sqrt m * Nat.sqrt m = m then Nat.sqrt m else Nat.sqrt m + 1

/-- The subsampling stride of `extract_colors_core` (lines 794–802):
`ceil(sqrt(total/pixels))` when the image has more pixels than the budget,
else `1`.  (`⌈√(t/p)⌉ = ⌈√⌈t/p⌉⌉` for positive integers.) -/
def stepFor (total pixels : ℤ) : ℕ :=
  if total > pixels ∧ pixels > 0 then
    max 1 (ceilSqrtNat ((total.toNat + pixels.toNat - 1) / pixels.toNat))
  else 1

/-- The allocation oracle for the core: the `clusters` buffer (checked), the
`kmeans_run` buffers, and the `dist2` buffer of `kmeans_pp_init`.  (The
`samples` buffer and `merge_colors`'s two buffers are used unchecked by the
C code, so their success is assumed.) -/
structure CoreAlloc where
  clustersOk : Bool
  kalloc : KAlloc
  ppOk : Bool
deriving DecidableEq, Repr

/-- The all-allocations-succeed oracle for the core. -/
def coreAllocOk : CoreAlloc := ⟨true, kallocOk, true⟩

/-- `extract_colors_core` of the C file: reject non-positive geometry,
subsample and alpha-filter into samples, return an empty list when nothing
survives, otherwise cluster (`K = clamp(maxColors)`) and merge.  `none` is
the C `return 0`, `some` the C `return 1` with its output list.  `rnd` is
the `rand()` stream seeded by `srand(time(NULL))`. -/
def extract_colors_core (buf : ℕ → Pixel) (w h : ℤ) (opt : Options)
    (al : CoreAlloc) (rnd : ℕ → ℕ) : Option (List ColorAgg) :=
  if w ≤ 0 ∨ h ≤ 0 then none
  else
    let step := stepFor (w * h) opt.pixels
    let samples := collectSamples buf w.toNat h.toNat step opt.alphaThreshold
    if samples.length = 0 then some []
    else
      let K1 : ℤ :=
        if opt.maxColors > (samples.length : ℤ) then (samples.length : ℤ)
        else opt.maxColors
      let K : ℕ := (if K1 ≤ 0 then 1 else K1).toNat
      if al.clustersOk = false then none
      else
        let cs0 := kmeans_pp_init al.ppOk samples K rnd
        let cs := (kmeans_run al.kalloc samples cs0 12).1
        let totalW := (cs.map Cluster.weight).sum
        some (merge_colors cs totalW opt)

/-! ## Serialization (`extract_colors_from_image`, `print_hex_from_rgb`) -/

/-- C `lround`: round to nearest, halfway cases away from zero. -/
def lroundQ (q : ℚ) : ℤ :=
  if 0 ≤ q then ⌊q + 1/2⌋ else -⌊-q + 1/2⌋

/-- The digit table of `print_hex_from_rgb`. -/
def hexChars : List Char := "0123456789abcdef".toList

/-- The two digits `hex[(v >> 4) & 0xF], hex[v & 0xF]` of one byte. -/
def hexByte (v : ℕ) : List Char :=
  [hexChars.getD (v / 16 % 16) '0', hexChars.getD (v % 16) '0']

/-- One serialized JSON entry of `extract_colors_from_image`. -/
structure SerColor where
  hex : List Char
  red : ℤ
  green : ℤ
  blue : ℤ
  hue : ℚ
  intensity : ℚ
  lightness : ℚ
  saturation : ℚ
  area : ℚ
deriving DecidableEq, Repr

/-- The per-aggregate serialization of `extract_colors_from_image`
(lines 873–891) together with `print_hex_from_rgb`: integer channels by
`lround(clampd(c, 0, 1) * 255)`, the `#rrggbb` digit string from those
integers, intensity the mean of the raw channels, and the cached HSL and
area copied through. -/
def serializeAgg (a : ColorAgg) : SerColor :=
  let R := lroundQ (clampd a.color.r 0 1 * 255)
  let G := lroundQ (clampd a.color.g 0 1 * 255)
  let B := lroundQ (clampd a.color.b 0 1 * 255)
  { hex := '#' :: (hexByte R.toNat ++ hexByte G.toNat ++ hexByte B.toNat)
    red := R, green := G, blue := B
    hue := a.h
    intensity := (a.color.r + a.color.g + a.color.b) / 3
    lightness := a.l
    saturation := a.s
    area := a.weight }

/-- `extract_colors_from_image` of the C file: run the core and serialize
every aggregate, `none` when the core fails. -/
def extract_colors_from_image (buf : ℕ → Pixel) (w h : ℤ) (opt : Options)
    (al : CoreAlloc) (rnd : ℕ → ℕ) : Option (List SerColor) :=
  (extract_colors_core buf w h opt al rnd).map (List.map serializeAgg)

/-! ## WebAssembly entry point (`extract_colors_from_rgba_js`) -/

/-- `EXTRACT_MAX_OUT_COLORS` of the C file. -/
def EXTRACT_MAX_OUT_COLORS : ℕ := 64

/-- One packed color of the wasm result buffer: the eight doubles
`[R, G, B, hue, intensity, lightness, saturation, area]`. -/
structure PackedColor where
  R : ℚ
  G : ℚ
  B : ℚ
  hue : ℚ
  intensity : ℚ
  lightness : ℚ
  saturation : ℚ
  area : ℚ
deriving DecidableEq, Repr

/-- `pack_results_to_out` of the C file: clamp the count to
`EXTRACT_MAX_OUT_COLORS` and write that many packed colors; the first slot
of the buffer holds the written count. -/
def pack_results_to_out (agg : List ColorAgg) : ℕ × List PackedColor :=
  let m := min agg.length EXTRACT_MAX_OUT_COLORS
  (m, (agg.take m).map fun a =>
    { R := clampd a.color.r 0 1 * 255
      G := clampd a.color.g 0 1 * 255
      B := clampd a.color.b 0 1 * 255
      hue := a.h
      intensity := (a.color.r + a.color.g + a.color.b) / 3
      lightness := a.l
      saturation := a.s
      area := a.weight })

/-- The option set-up of `extract_colors_from_rgba_js` (lines 965–972):
non-positive `pixels` becomes `64000`, `maxColors` outside
`1 .. EXTRACT_MAX_OUT_COLORS` becomes `16`, the rest pass through. -/
def js_options (pixels : ℤ) (distance satDist lightDist hueDist : ℚ)
    (alphaThreshold maxColors : ℤ) : Options :=
  { pixels := if pixels > 0 then pixels else 64000
    distance := distance
    satDist := satDist
    lightDist := lightDist
    hueDist := hueDist
    alphaThreshold := alphaThreshold
    maxColors :=
      if maxColors > 0 ∧ maxColors ≤ (EXTRACT_MAX_OUT_COLORS : ℤ) then
        maxColors
      else 16 }

/-- `extract_colors_from_rgba_js` of the C file: build the options, run the
core, and pack; `none` is the C `return 0` on core failure. -/
def extract_colors_from_rgba_js (buf : ℕ → Pixel) (w h : ℤ) (pixels : ℤ)
    (distance satDist lightDist hueDist : ℚ) (alphaThreshold maxColors : ℤ)
    (al : CoreAlloc) (rnd : ℕ → ℕ) : Option (ℕ × List PackedColor) :=
  (extract_colors_core buf w h
      (js_options pixels distance satDist lightDist hueDist alphaThreshold
        maxColors) al rnd).map
    pack_results_to_out

/-! ## Spec-side auxiliary definitions used by theorem statements -/

/-- Unit-box membership for a normalized color. -/
def inBox (c : RGB) : Prop :=
  0 ≤ c.r ∧ c.r ≤ 1 ∧ 0 ≤ c.g ∧ c.g ≤ 1 ∧ 0 ≤ c.b ∧ c.b ≤ 1

/-- Well-formedness of an accepted aggregate: positive weight, color in the
unit box, and cached HSL consistent with the color. -/
def AggWF (a : ColorAgg) : Prop :=
  0 < a.weight ∧ inBox a.color ∧
    (a.h, a.s, a.l) = rgb_to_hsl a.color.r a.color.g a.color.b

/-- The value of one lowercase hexadecimal digit character. -/
def hexDigitVal (c : Char) : ℕ :=
  if '0' ≤ c ∧ c ≤ '9' then c.toNat - '0'.toNat
  else if 'a' ≤ c ∧ c ≤ 'f' then c.toNat - 'a'.toNat + 10
  else 0

/-- The value of a two-digit hexadecimal byte. -/
def hexValue : List Char → ℕ
  | [d1, d2] => hexDigitVal d1 * 16 + hexDigitVal d2
  | _ => 0

/-- The state trace of the `kmeans_run` iteration loop: clusters and
assignment after `t` full Assign → Reset-Empty → Update iterations. -/
def kmeansStates (samples : List RGB) (cs : List Cluster) (asn : ℕ → ℤ) :
    ℕ → List Cluster × (ℕ → ℤ)
  | 0 => (cs, asn)
  | Nat.succ t =>
    let p := kmeansStates samples cs asn t
    let r := kmeansIter samples p.1 p.2
    (r.1, r.2.1)

/-- The `changed` flag of iteration `t` of the trace. -/
def iterChangedAt (samples : List RGB) (cs : List Cluster) (asn : ℕ → ℤ)
    (t : ℕ) : Bool :=
  (kmeansIter samples (kmeansStates samples cs asn t).1
    (kmeansStates samples cs asn t).2).2.2

/-- A concrete one-sample assignment state (cluster 0 holds the sample,
cluster 1 is empty), used in concrete instances below. -/
def cexState : PassState :=
  { weights := fun j => if j = 0 then 1 else 0
    sr := fun _ => 0
    sg := fun _ => 0
    sb := fun _ => 0
    assign := fun _ => 0
    bestd2 := fun _ => 0
    changed := false }

/-- A constant buffer of one translucent-free gray pixel, used in concrete
instances below. -/
def cexGrayBuf : ℕ → Pixel := fun _ => ⟨10, 20, 30, 255⟩

/-- A constant buffer of opaque white pixels, used in concrete instances
below. -/
def cexWhiteBuf : ℕ → Pixel := fun _ => ⟨255, 255, 255, 255⟩

/-! ## Helper lemmas: the sampling loop -/

theorem filterMap_alpha (f : ℕ → Pixel) (thr : ℤ) (l : List ℕ) :
    (l.filterMap fun x =>
      let p := f x
      if (p.a : ℤ) ≤ thr then none else some (pixToRGB p)) =
      ((l.map f).filter (pixelIncluded thr)).map pixToRGB := by
  induction l with
  | nil => rfl
  | cons a t ih =>
    simp only [List.filterMap_cons, List.map_cons, List.filter_cons]
    by_cases h : ((f a).a : ℤ) ≤ thr
    · simpa [h, pixelIncluded] using ih
    · simpa [h, pixelIncluded] using ih

theorem collectSamples_eq_filter (buf : ℕ → Pixel) (w h step : ℕ) (thr : ℤ) :
    collectSamples buf w h step thr =
      ((visitedPixels buf w h step).filter (pixelIncluded thr)).map pixToRGB := by
  unfold collectSamples visitedPixels
  induction strideIdx h step with
  | nil => rfl
  | cons y ys ih =>
    simp only [List.flatMap_cons, List.filter_append, List.map_append]
    rw [ih, filterMap_alpha (fun x => buf (y * w + x)) thr]

/-! ## C1: the sampler versus the spec's histogram sampler -/

/-- C1 counterexample: on a 2×1 buffer of two identical opaque pixels the
code's sampler emits two samples (one per surviving pixel), while the
spec's histogram sampler has exactly one non-empty bucket and so would emit
exactly one weighted sample. -/
theorem histogram_cex_C1 :
    (collectSamples cexGrayBuf 2 1 1 250).length = 2 ∧
    (specHistogramSamples cexGrayBuf 2 1 1 250).length = 1 := by decide

/-- C1 (amended): the sampler performs no quantization and no histogram
counting: it emits exactly one sample per surviving visited pixel, in visit
order, whose channels are the raw byte values divided by 255; each pixel
contributes exactly once (unit weight), so the sample count equals the
surviving-pixel count. -/
theorem sampler_per_pixel_C1 (buf : ℕ → Pixel) (w h step : ℕ) (thr : ℤ) :
    collectSamples buf w h step thr =
      ((visitedPixels buf w h step).filter (pixelIncluded thr)).map pixToRGB ∧
    (collectSamples buf w h step thr).length =
      ((visitedPixels buf w h step).filter (pixelIncluded thr)).length := by
  have h := collectSamples_eq_filter buf w h step thr
  exact ⟨h, by rw [h, List.length_map]⟩

/-! ## C7: the alpha-threshold boundary -/

/-- C7: the sample set is exactly the visited pixels whose alpha strictly
exceeds `alphaThreshold`; a visited pixel with alpha equal to the threshold
is excluded and one with alpha equal to threshold + 1 is included. -/
theorem alpha_threshold_C7 (buf : ℕ → Pixel) (w h step : ℕ) (thr : ℤ)
    (p q : Pixel) (hp : (p.a : ℤ) = thr) (hq : (q.a : ℤ) = thr + 1) :
    pixelIncluded thr p = false ∧ pixelIncluded thr q = true ∧
    collectSamples buf w h step thr =
      ((visitedPixels buf w h step).filter (pixelIncluded thr)).map pixToRGB := by
  refine ⟨?_, ?_, collectSamples_eq_filter buf w h step thr⟩
  · simp [pixelIncluded, hp]
  · simp only [pixelIncluded, Bool.not_eq_true', decide_eq_false_iff_not]
    omega

/-- C7 witness: the boundary at the default threshold 250. -/
theorem alpha_threshold_witness_C7 :
    pixelIncluded 250 (⟨0, 0, 0, 250⟩ : Pixel) = false ∧
    pixelIncluded 250 (⟨0, 0, 0, 251⟩ : Pixel) = true ∧
    collectSamples cexGrayBuf 1 1 1 250 =
      ((visitedPixels cexGrayBuf 1 1 1).filter (pixelIncluded 250)).map
        pixToRGB :=
  alpha_threshold_C7 cexGrayBuf 1 1 1 250 ⟨0, 0, 0, 250⟩ ⟨0, 0, 0, 251⟩
    (by decide) (by decide)

/-! ## C8: empty sample set and invalid geometry -/

/-- C8: non-positive width or height makes the core fail (`none`, the C
`return 0`) before any sampling, while an empty surviving-sample set makes
it succeed with an empty aggregate list (`some []`, the C `return 1`). -/
theorem empty_ok_geometry_fail_C8 (buf : ℕ → Pixel) (w h : ℤ) (opt : Options)
    (al : CoreAlloc) (rnd : ℕ → ℕ) :
    (w ≤ 0 ∨ h ≤ 0 → extract_colors_core buf w h opt al rnd = none) ∧
    (0 < w → 0 < h →
      collectSamples buf w.toNat h.toNat (stepFor (w * h) opt.pixels)
          opt.alphaThreshold = [] →
      extract_colors_core buf w h opt al rnd = some []) := by
  constructor
  · intro hwh
    unfold extract_colors_core
    rw [if_pos hwh]
  · intro hw hh hcs
    unfold extract_colors_core
    rw [if_neg (by omega)]
    simp only [hcs, List.length_nil, if_pos rfl]
    simp

/-! ## Helper lemmas: sorting and zero-weight clusters -/

theorem insertDesc_perm (c : Cluster) (l : List Cluster) :
    (insertDesc c l).Perm (c :: l) := by
  induction l with
  | nil => exact List.Perm.refl _
  | cons a t ih =>
    unfold insertDesc
    by_cases h : a.weight < c.weight
    · rw [if_pos h]
    · rw [if_neg h]
      exact (ih.cons a).trans (List.Perm.swap c a t)

theorem sortClustersDesc_perm (l : List Cluster) :
    (sortClustersDesc l).Perm l := by
  induction l with
  | nil => exact List.Perm.refl _
  | cons a t ih =>
    exact (insertDesc_perm a (sortClustersDesc t)).trans (ih.cons a)

theorem ppMain_weights (samples : List RGB) (rnd : ℕ → ℕ) :
    ∀ (fuel t : ℕ) (dist2 : List ℚ) (acc : List Cluster),
      (∀ c ∈ acc, c.weight = 0) →
      ∀ c ∈ ppMain samples rnd fuel t dist2 acc, c.weight = 0 := by
  intro fuel
  induction fuel with
  | zero => intro t dist2 acc hacc; exact hacc
  | succ fuel ih =>
    intro t dist2 acc hacc c hc
    unfold ppMain at hc
    by_cases hs : dist2.sum ≤ 0
    · rw [if_pos hs] at hc
      refine ih _ _ _ ?_ c hc
      intro d hd
      rcases List.mem_append.mp hd with h1 | h1
      · exact hacc d h1
      · simp only [List.mem_singleton] at h1; rw [h1]
    · rw [if_neg hs] at hc
      refine ih _ _ _ ?_ c hc
      intro d hd
      rcases List.mem_append.mp hd with h1 | h1
      · exact hacc d h1
      · simp only [List.mem_singleton] at h1; rw [h1]

theorem kmeans_pp_init_weights (ppOk : Bool) (samples : List RGB) (K : ℕ)
    (rnd : ℕ → ℕ) :
    ∀ c ∈ kmeans_pp_init ppOk samples K rnd, c.weight = 0 := by
  intro c hc
  unfold kmeans_pp_init at hc
  split at hc
  · simp at hc
  · split at hc
    · rcases List.mem_cons.mp hc with h1 | h1
      · rw [h1]
      · unfold ppFallback at h1
        obtain ⟨j, _, hj⟩ := List.mem_map.mp h1
        rw [← hj]
    · exact ppMain_weights samples rnd _ _ _ _
        (by intro d hd; simp only [List.mem_singleton] at hd; rw [hd]) c hc

theorem mergeFold_nonpos (opt : Options) (acc : List ColorAgg)
    (l : List Cluster) (h : ∀ c ∈ l, c.weight ≤ 0) :
    mergeFold opt acc l = acc := by
  induction l generalizing acc with
  | nil => rfl
  | cons a t ih =>
    unfold mergeFold
    rw [if_pos (h a (List.mem_cons_self a t))]
    exact ih acc fun c hc => h c (List.mem_cons_of_mem a hc)

theorem merge_colors_zero_weights (clusters : List Cluster) (tw : ℚ)
    (opt : Options) (h : ∀ c ∈ clusters, c.weight = 0) :
    merge_colors clusters tw opt = [] := by
  unfold merge_colors
  rw [mergeFold_nonpos]
  · rfl
  · intro c hc
    exact le_of_eq (h c ((sortClustersDesc_perm clusters).mem_iff.mp hc))

theorem kmeans_run_alloc_fail (al : KAlloc) (samples : List RGB)
    (cs : List Cluster) (iters : ℕ)
    (hfail : al.assignOk = false ∨ al.sumsOk = false ∨ al.auxOk = false) :
    kmeans_run al samples cs iters = (cs, 0) := by
  unfold kmeans_run
  split
  all_goals first
    | rfl
    | (rename_i hno; exact absurd hfail hno)

/-! ## C2: allocation-failure behavior of the core -/

/-- C2 counterexample: with the `assign` buffer allocation of `kmeans_run`
failing on a 1×1 opaque image, the core still returns success (`some`,
the C `return 1`) with an output list, not a failure signal. -/
theorem alloc_failure_cex_C2 :
    extract_colors_core cexWhiteBuf 1 1 defaultOptions
        ⟨true, ⟨false, true, true⟩, true⟩ (fun _ => 0) = some [] ∧
    extract_colors_core cexWhiteBuf 1 1 defaultOptions
        ⟨true, ⟨false, true, true⟩, true⟩ (fun _ => 0) ≠ none := by decide

/-- C2 (amended): only the checked `clusters` allocation aborts the core
with a failure signal and no output; an allocation failure inside
`kmeans_run` is swallowed — the run returns with the initializer's
zero-weight clusters untouched and the core reports success with an empty
aggregate list. -/
theorem alloc_failure_paths_C2 (buf : ℕ → Pixel) (w h : ℤ) (opt : Options)
    (al : CoreAlloc) (rnd : ℕ → ℕ) (hw : 0 < w) (hh : 0 < h)
    (hs : collectSamples buf w.toNat h.toNat (stepFor (w * h) opt.pixels)
        opt.alphaThreshold ≠ []) :
    (al.clustersOk = false → extract_colors_core buf w h opt al rnd = none) ∧
    ((al.kalloc.assignOk = false ∨ al.kalloc.sumsOk = false ∨
        al.kalloc.auxOk = false) →
      al.clustersOk = true →
      extract_colors_core buf w h opt al rnd = some []) := by
  have hlen : (collectSamples buf w.toNat h.toNat (stepFor (w * h) opt.pixels)
      opt.alphaThreshold).length ≠ 0 := by
    intro h0
    exact hs (List.length_eq_zero.mp h0)
  constructor
  · intro hc
    unfold extract_colors_core
    rw [if_neg (by omega), if_neg hlen, if_pos hc]
  · intro hfail hc
    unfold extract_colors_core
    rw [if_neg (by omega), if_neg hlen, if_neg (by rw [hc]; exact fun hf => by cases hf)]
    simp only [kmeans_run_alloc_fail _ _ _ _ hfail]
    rw [merge_colors_zero_weights _ _ _ (kmeans_pp_init_weights _ _ _ _)]

/-- C2 witness: the amended statement at the 1×1 opaque image with the
`kmeans_run` assign-buffer allocation failing. -/
theorem alloc_failure_witness_C2 :
    ((⟨true, ⟨false, true, true⟩, true⟩ : CoreAlloc).clustersOk = false →
      extract_colors_core cexWhiteBuf 1 1 defaultOptions
        ⟨true, ⟨false, true, true⟩, true⟩ (fun _ => 0) = none) ∧
    (((⟨true, ⟨false, true, true⟩, true⟩ : CoreAlloc).kalloc.assignOk = false ∨
        (⟨true, ⟨false, true, true⟩, true⟩ : CoreAlloc).kalloc.sumsOk = false ∨
        (⟨true, ⟨false, true, true⟩, true⟩ : CoreAlloc).kalloc.auxOk = false) →
      (⟨true, ⟨false, true, true⟩, true⟩ : CoreAlloc).clustersOk = true →
      extract_colors_core cexWhiteBuf 1 1 defaultOptions
        ⟨true, ⟨false, true, true⟩, true⟩ (fun _ => 0) = some []) :=
  alloc_failure_paths_C2 cexWhiteBuf 1 1 defaultOptions
    ⟨true, ⟨false, true, true⟩, true⟩ (fun _ => 0) (by decide) (by decide)
    (by decide)

/-! ## C10: the WebAssembly entry point -/

/-- C10: the packed result buffer holds at most `EXTRACT_MAX_OUT_COLORS`
(64) colors, its count slot is exactly `min m 64` (silently truncating any
extra aggregates), and the entry point replaces out-of-range parameters by
defaults: non-positive `pixels` becomes 64000 and `maxColors` outside
`1..64` becomes 16, in-range values passing through unchanged. -/
theorem wasm_entry_C10 (agg : List ColorAgg) (buf : ℕ → Pixel)
    (w h pixels : ℤ) (distance satDist lightDist hueDist : ℚ)
    (alphaThreshold maxColors : ℤ) (al : CoreAlloc) (rnd : ℕ → ℕ) :
    (pack_results_to_out agg).1 ≤ 64 ∧
    (pack_results_to_out agg).2.length = (pack_results_to_out agg).1 ∧
    (pack_results_to_out agg).1 = min agg.length 64 ∧
    ((pixels ≤ 0 →
        (js_options pixels distance satDist lightDist hueDist alphaThreshold
          maxColors).pixels = 64000) ∧
      (0 < pixels →
        (js_options pixels distance satDist lightDist hueDist alphaThreshold
          maxColors).pixels = pixels)) ∧
    (((maxColors ≤ 0 ∨ 64 < maxColors) →
        (js_options pixels distance satDist lightDist hueDist alphaThreshold
          maxColors).maxColors = 16) ∧
      (0 < maxColors → maxColors ≤ 64 →
        (js_options pixels distance satDist lightDist hueDist alphaThreshold
          maxColors).maxColors = maxColors)) ∧
    (∀ r : ℕ × List PackedColor,
      extract_colors_from_rgba_js buf w h pixels distance satDist lightDist
          hueDist alphaThreshold maxColors al rnd = some r →
      r.1 ≤ 64 ∧ r.2.length ≤ 64) := by
  have hpack : ∀ l : List ColorAgg,
      (pack_results_to_out l).1 ≤ 64 ∧
        (pack_results_to_out l).2.length = (pack_results_to_out l).1 := by
    intro l
    unfold pack_results_to_out
    refine ⟨min_le_right _ _, ?_⟩
    simp [EXTRACT_MAX_OUT_COLORS, List.length_take]
  refine ⟨(hpack agg).1, (hpack agg).2, ?_, ⟨?_, ?_⟩, ⟨?_, ?_⟩, ?_⟩
  · rfl
  · intro hple
    unfold js_options
    rw [if_neg (by omega)]
  · intro hpgt
    unfold js_options
    rw [if_pos hpgt]
  · intro hmc
    unfold js_options
    simp only
    rw [if_neg (by rintro ⟨h1, h2⟩; simp [EXTRACT_MAX_OUT_COLORS] at h2; omega)]
  · intro h1 h2
    unfold js_options
    simp only
    rw [if_pos ⟨by omega, by simp [EXTRACT_MAX_OUT_COLORS]; omega⟩]
  · intro r hr
    unfold extract_colors_from_rgba_js at hr
    rcases Option.map_eq_some'.mp hr with ⟨l, _, hl⟩
    rw [← hl]
    exact ⟨(hpack l).1, by rw [(hpack l).2]; exact (hpack l).1⟩

/-! ## C9: serialization -/

theorem clampd_mem (x : ℚ) : 0 ≤ clampd x 0 1 ∧ clampd x 0 1 ≤ 1 := by
  unfold clampd
  split
  · norm_num
  · split
    · norm_num
    · constructor <;> linarith [not_lt.mp (by assumption : ¬ x < 0),
        not_lt.mp (by assumption : ¬ x > 1)]

theorem lroundQ_gap (q : ℚ) : |q - (lroundQ q : ℚ)| ≤ 1/2 := by
  unfold lroundQ
  split
  · rw [abs_le]
    have h1 := Int.floor_le (q + 1/2)
    have h2 := Int.lt_floor_add_one (q + 1/2)
    constructor
    · linarith
    · linarith
  · rw [abs_le]
    have h1 := Int.floor_le (-q + 1/2)
    have h2 := Int.lt_floor_add_one (-q + 1/2)
    push_cast
    constructor
    · linarith
    · linarith

theorem lroundQ_nearest (q : ℚ) (z : ℤ) :
    |q - (lroundQ q : ℚ)| ≤ |q - (z : ℚ)| := by
  by_cases hz : z = lroundQ q
  · rw [hz]
  · have hgap : (1 : ℚ) ≤ |(z : ℚ) - (lroundQ q : ℚ)| := by
      rw [← Int.cast_sub, ← Int.cast_abs]
      exact_mod_cast Int.one_le_abs (sub_ne_zero.mpr hz)
    have h1 := lroundQ_gap q
    have h2 : |(z : ℚ) - (lroundQ q : ℚ)| ≤ |q - (z : ℚ)| + |q - (lroundQ q : ℚ)| := by
      have := abs_sub_abs_le_abs_sub (q - (lroundQ q : ℚ)) (q - (z : ℚ))
      calc |(z : ℚ) - (lroundQ q : ℚ)|
          = |(q - (lroundQ q : ℚ)) - (q - (z : ℚ))| := by ring_nf
        _ ≤ |q - (lroundQ q : ℚ)| + |q - (z : ℚ)| := abs_sub _ _
        _ = |q - (z : ℚ)| + |q - (lroundQ q : ℚ)| := by ring
    linarith

theorem lroundQ_nonneg_le (q : ℚ) (h0 : 0 ≤ q) (h255 : q ≤ 255) :
    0 ≤ lroundQ q ∧ lroundQ q ≤ 255 := by
  unfold lroundQ
  rw [if_pos h0]
  constructor
  · exact Int.floor_nonneg.mpr (by linarith)
  · have h := Int.floor_le (q + 1/2)
    have : ((⌊q + 1/2⌋ : ℤ) : ℚ) < 256 := by linarith
    exact_mod_cast Int.lt_add_one_iff.mp (by exact_mod_cast this)

theorem lroundQ_tie_away (q : ℚ) (z : ℤ)
    (h : |q - (z : ℚ)| = |q - (lroundQ q : ℚ)|) :
    z.natAbs ≤ (lroundQ q).natAbs := by
  by_cases hz : z = lroundQ q
  · rw [hz]
  · -- a distinct integer at equal distance forces the exact half-way case,
    -- and the rounded value is the one farther from zero
    have hgap : (1 : ℚ) ≤ |(z : ℚ) - (lroundQ q : ℚ)| := by
      rw [← Int.cast_sub, ← Int.cast_abs]
      exact_mod_cast Int.one_le_abs (sub_ne_zero.mpr hz)
    have h1 := lroundQ_gap q
    have h2 : |(z : ℚ) - (lroundQ q : ℚ)| ≤ |q - (z : ℚ)| + |q - (lroundQ q : ℚ)| := by
      calc |(z : ℚ) - (lroundQ q : ℚ)|
          = |(q - (lroundQ q : ℚ)) - (q - (z : ℚ))| := by ring_nf
        _ ≤ |q - (lroundQ q : ℚ)| + |q - (z : ℚ)| := abs_sub _ _
        _ = |q - (z : ℚ)| + |q - (lroundQ q : ℚ)| := by ring
    have heq : |q - (lroundQ q : ℚ)| = 1/2 := by
      have := h ▸ h2
      linarith [abs_nonneg (q - (z : ℚ))]
    -- identify both integers explicitly
    unfold lroundQ at *
    by_cases hq : 0 ≤ q
    · rw [if_pos hq] at *
      have hfl := Int.floor_le (q + 1/2)
      have hfu := Int.lt_floor_add_one (q + 1/2)
      have hqr : q - (⌊q + 1/2⌋ : ℚ) = -(1/2) := by
        rcases abs_eq (by norm_num : (0:ℚ) ≤ 1/2) |>.mp heq with hc | hc
        · linarith
        · linarith
      have hzv : z = ⌊q + 1/2⌋ - 1 := by
        have : |q - (z : ℚ)| = 1/2 := by rw [h, heq]
        rcases abs_eq (by norm_num : (0:ℚ) ≤ 1/2) |>.mp this with hc | hc
        · have : (z : ℚ) = (⌊q + 1/2⌋ : ℚ) - 1 := by linarith
          exact_mod_cast this
        · exfalso
          apply hz
          have : (z : ℚ) = (⌊q + 1/2⌋ : ℚ) := by linarith
          exact_mod_cast this
      have hr1 : 1 ≤ ⌊q + 1/2⌋ := by
        have : (0:ℚ) < (⌊q + 1/2⌋ : ℚ) := by linarith
        exact_mod_cast this
      rw [hzv]
      omega
    · rw [if_neg hq] at *
      push_neg at hq
      have hfl := Int.floor_le (-q + 1/2)
      have hfu := Int.lt_floor_add_one (-q + 1/2)
      have hqr : q - (-(⌊-q + 1/2⌋:ℤ) : ℚ) = 1/2 := by
        push_cast
        rcases abs_eq (by norm_num : (0:ℚ) ≤ 1/2) |>.mp heq with hc | hc
        · push_cast at hc; linarith
        · push_cast at hc; linarith
      have hzv : z = -⌊-q + 1/2⌋ + 1 := by
        have habs : |q - (z : ℚ)| = 1/2 := by rw [h, heq]
        rcases abs_eq (by norm_num : (0:ℚ) ≤ 1/2) |>.mp habs with hc | hc
        · exfalso
          apply hz
          have : (z : ℚ) = ((-⌊-q + 1/2⌋ : ℤ) : ℚ) := by push_cast; push_cast at hqr; linarith
          exact_mod_cast this
        · have : (z : ℚ) = ((-⌊-q + 1/2⌋ + 1 : ℤ) : ℚ) := by push_cast; push_cast at hqr; linarith
          exact_mod_cast this
      have hr1 : 1 ≤ ⌊-q + 1/2⌋ := by
        have : (0:ℚ) < (⌊-q + 1/2⌋ : ℚ) := by push_cast at hqr ⊢; linarith
        exact_mod_cast this
      rw [hzv]
      omega

set_option maxRecDepth 8192 in
theorem hexByte_parse : ∀ v : ℕ, v < 256 →
    hexValue (hexByte v) = v ∧ ∀ c ∈ hexByte v, c ∈ hexChars := by decide

/-- C9: serialized integer channels are `lround` (round half away from
zero) of the clamped centroid channel times 255 and lie in `0..255`; the
hex field is `#` followed by the three zero-padded two-digit lowercase hex
bytes of exactly those integers (parsing the digits back recovers them);
intensity is the mean of the three raw RGB channels. -/
theorem serialization_C9 (a : ColorAgg) (q : ℚ) :
    ((serializeAgg a).red = lroundQ (clampd a.color.r 0 1 * 255) ∧
      (serializeAgg a).green = lroundQ (clampd a.color.g 0 1 * 255) ∧
      (serializeAgg a).blue = lroundQ (clampd a.color.b 0 1 * 255)) ∧
    (∀ z : ℤ, |q - (lroundQ q : ℚ)| ≤ |q - (z : ℚ)|) ∧
    (∀ z : ℤ, |q - (z : ℚ)| = |q - (lroundQ q : ℚ)| →
      z.natAbs ≤ (lroundQ q).natAbs) ∧
    (0 ≤ (serializeAgg a).red ∧ (serializeAgg a).red ≤ 255 ∧
      0 ≤ (serializeAgg a).green ∧ (serializeAgg a).green ≤ 255 ∧
      0 ≤ (serializeAgg a).blue ∧ (serializeAgg a).blue ≤ 255) ∧
    ((serializeAgg a).hex =
      '#' :: (hexByte (serializeAgg a).red.toNat ++
        hexByte (serializeAgg a).green.toNat ++
        hexByte (serializeAgg a).blue.toNat)) ∧
    (serializeAgg a).hex.length = 7 ∧
    (∀ v : ℕ, v < 256 →
      hexValue (hexByte v) = v ∧ ∀ c ∈ hexByte v, c ∈ hexChars) ∧
    (serializeAgg a).intensity = (a.color.r + a.color.g + a.color.b) / 3 := by
  have hchan : ∀ x : ℚ, 0 ≤ lroundQ (clampd x 0 1 * 255) ∧
      lroundQ (clampd x 0 1 * 255) ≤ 255 := by
    intro x
    have h := clampd_mem x
    exact lroundQ_nonneg_le _ (by nlinarith [h.1, h.2]) (by nlinarith [h.1, h.2])
  refine ⟨⟨rfl, rfl, rfl⟩, fun z => lroundQ_nearest q z,
    fun z hz => lroundQ_tie_away q z hz,
    ⟨(hchan a.color.r).1, (hchan a.color.r).2, (hchan a.color.g).1,
      (hchan a.color.g).2, (hchan a.color.b).1, (hchan a.color.b).2⟩,
    rfl, ?_, hexByte_parse, rfl⟩
  simp [serializeAgg, hexByte]

/-! ## Helper lemmas: the merge criteria and the merge scan -/

theorem rgb_dist2_raw_nonneg (a b : RGB) : 0 ≤ rgb_dist2_raw a b := by
  unfold rgb_dist2_raw
  positivity

theorem rgb_criterion_real (d2 t : ℚ) (hd2 : 0 ≤ d2) (ht : 0 ≤ t) :
    Real.sqrt (d2 : ℝ) / Real.sqrt 3 ≤ (t : ℝ) ↔ d2 ≤ t ^ 2 * 3 := by
  have h3 : (0 : ℝ) < Real.sqrt 3 := Real.sqrt_pos.mpr (by norm_num)
  rw [div_le_iff h3]
  rw [Real.sqrt_le_left (by positivity)]
  rw [mul_pow, Real.sq_sqrt (by norm_num : (0:ℝ) ≤ 3)]
  constructor
  · intro hle
    exact_mod_cast hle
  · intro hle
    exact_mod_cast hle

theorem tryMerge_none (opt : Options) (c : RGB) (w hi si li : ℚ)
    (acc : List ColorAgg) (h : ∀ a ∈ acc, mergeMatch opt c hi si li a = false) :
    tryMerge opt c w hi si li acc = none := by
  induction acc with
  | nil => rfl
  | cons a t ih =>
    unfold tryMerge
    rw [h a (List.mem_cons_self a t)]
    simp only [Bool.false_eq_true, if_false]
    rw [ih fun b hb => h b (List.mem_cons_of_mem a hb)]
    rfl

theorem tryMerge_first (opt : Options) (c : RGB) (w hi si li : ℚ) :
    ∀ (acc : List ColorAgg) (j₀ : ℕ) (hj : j₀ < acc.length),
      mergeMatch opt c hi si li (acc.get ⟨j₀, hj⟩) = true →
      (∀ (j : ℕ) (hlt : j < j₀),
        mergeMatch opt c hi si li (acc.get ⟨j, hlt.trans hj⟩) = false) →
      tryMerge opt c w hi si li acc =
        some (acc.set j₀ (mergeInto (acc.get ⟨j₀, hj⟩) c w)) := by
  intro acc
  induction acc with
  | nil => intro j₀ hj; exact absurd hj (by simp)
  | cons a t ih =>
    intro j₀ hj hm hfirst
    match j₀ with
    | 0 =>
      have hm0 : mergeMatch opt c hi si li a = true := hm
      unfold tryMerge
      rw [hm0]
      rfl
    | Nat.succ j =>
      have ha : mergeMatch opt c hi si li a = false :=
        hfirst 0 (Nat.succ_pos j)
      unfold tryMerge
      rw [ha]
      simp only [Bool.false_eq_true, if_false]
      rw [ih j (Nat.lt_of_succ_lt_succ hj) hm
        (fun i hlt => hfirst (i + 1) (Nat.succ_lt_succ hlt))]
      rfl

theorem mergeFold_cons (opt : Options) (acc : List ColorAgg) (cl : Cluster)
    (rest : List Cluster) :
    mergeFold opt acc (cl :: rest) =
      if cl.weight ≤ 0 then mergeFold opt acc rest
      else
        match tryMerge opt cl.color cl.weight
            (rgb_to_hsl cl.color.r cl.color.g cl.color.b).1
            (rgb_to_hsl cl.color.r cl.color.g cl.color.b).2.1
            (rgb_to_hsl cl.color.r cl.color.g cl.color.b).2.2 acc with
        | some acc2 => mergeFold opt acc2 rest
        | none =>
          mergeFold opt
            (acc ++ [{ color := cl.color, weight := cl.weight,
                       h := (rgb_to_hsl cl.color.r cl.color.g cl.color.b).1,
                       s := (rgb_to_hsl cl.color.r cl.color.g cl.color.b).2.1,
                       l := (rgb_to_hsl cl.color.r cl.color.g cl.color.b).2.2 }])
            rest := rfl

theorem insertDesc_sorted (c : Cluster) (l : List Cluster)
    (h : l.Pairwise fun a b => b.weight ≤ a.weight) :
    (insertDesc c l).Pairwise fun a b => b.weight ≤ a.weight := by
  induction l with
  | nil => simp [insertDesc]
  | cons a t ih =>
    unfold insertDesc
    rcases List.pairwise_cons.mp h with ⟨ha, ht⟩
    by_cases hw : a.weight < c.weight
    · rw [if_pos hw]
      refine List.pairwise_cons.mpr ⟨?_, h⟩
      intro b hb
      rcases List.mem_cons.mp hb with h1 | h1
      · rw [h1]; exact le_of_lt hw
      · exact (ha b h1).trans (le_of_lt hw)
    · rw [if_neg hw]
      refine List.pairwise_cons.mpr ⟨?_, ih ht⟩
      intro b hb
      rcases List.mem_cons.mp ((insertDesc_perm c t).mem_iff.mp hb) with h1 | h1
      · rw [h1]; exact not_lt.mp hw
      · exact ha b h1

theorem sortClustersDesc_sorted (l : List Cluster) :
    (sortClustersDesc l).Pairwise fun a b => b.weight ≤ a.weight := by
  induction l with
  | nil => simp [sortClustersDesc]
  | cons a t ih => exact insertDesc_sorted a (sortClustersDesc t) ih

/-! ## C3: the two merge criteria and the first-match policy -/

/-- C3: the merge test accepts exactly when the Euclidean RGB distance
divided by √3 is at most the `distance` threshold or all three strict HSL
differences hold simultaneously; `merge_colors` processes clusters in
descending-weight order (a permutation of the input), skips non-positive
weights, merges a cluster into the first already-accepted aggregate (in
acceptance order) passing the test, and otherwise appends it as a new
aggregate. -/
theorem merge_first_match_C3 (opt : Options) (cl : Cluster)
    (acc : List ColorAgg) (rest l : List Cluster)
    (hd : 0 ≤ opt.distance) :
    (∀ (c : RGB) (hi si li : ℚ) (a : ColorAgg),
      mergeMatch opt c hi si li a = true ↔
        (Real.sqrt (rgb_dist2_raw c a.color : ℝ) / Real.sqrt 3 ≤
            (opt.distance : ℝ) ∨
          (|si - a.s| < opt.satDist ∧ |li - a.l| < opt.lightDist ∧
            hue_arc_dist hi a.h < opt.hueDist))) ∧
    ((sortClustersDesc l).Perm l ∧
      (sortClustersDesc l).Pairwise fun a b => b.weight ≤ a.weight) ∧
    (cl.weight ≤ 0 → mergeFold opt acc (cl :: rest) = mergeFold opt acc rest) ∧
    (0 < cl.weight →
      (∀ a ∈ acc,
        mergeMatch opt cl.color
          (rgb_to_hsl cl.color.r cl.color.g cl.color.b).1
          (rgb_to_hsl cl.color.r cl.color.g cl.color.b).2.1
          (rgb_to_hsl cl.color.r cl.color.g cl.color.b).2.2 a = false) →
      mergeFold opt acc (cl :: rest) =
        mergeFold opt
          (acc ++ [{ color := cl.color, weight := cl.weight,
                     h := (rgb_to_hsl cl.color.r cl.color.g cl.color.b).1,
                     s := (rgb_to_hsl cl.color.r cl.color.g cl.color.b).2.1,
                     l := (rgb_to_hsl cl.color.r cl.color.g cl.color.b).2.2 }])
          rest) ∧
    (∀ (j₀ : ℕ) (hj : j₀ < acc.length), 0 < cl.weight →
      mergeMatch opt cl.color
        (rgb_to_hsl cl.color.r cl.color.g cl.color.b).1
        (rgb_to_hsl cl.color.r cl.color.g cl.color.b).2.1
        (rgb_to_hsl cl.color.r cl.color.g cl.color.b).2.2
        (acc.get ⟨j₀, hj⟩) = true →
      (∀ (j : ℕ) (hlt : j < j₀),
        mergeMatch opt cl.color
          (rgb_to_hsl cl.color.r cl.color.g cl.color.b).1
          (rgb_to_hsl cl.color.r cl.color.g cl.color.b).2.1
          (rgb_to_hsl cl.color.r cl.color.g cl.color.b).2.2
          (acc.get ⟨j, hlt.trans hj⟩) = false) →
      mergeFold opt acc (cl :: rest) =
        mergeFold opt
          (acc.set j₀ (mergeInto (acc.get ⟨j₀, hj⟩) cl.color cl.weight))
          rest) := by
  refine ⟨?_, ⟨sortClustersDesc_perm l, sortClustersDesc_sorted l⟩, ?_, ?_, ?_⟩
  · intro c hi si li a
    unfold mergeMatch
    rw [Bool.or_eq_true, Bool.and_eq_true, Bool.and_eq_true]
    rw [decide_eq_true_iff, decide_eq_true_iff, decide_eq_true_iff,
      decide_eq_true_iff]
    rw [rgb_criterion_real _ _ (rgb_dist2_raw_nonneg c a.color) hd]
    tauto
  · intro hw
    rw [mergeFold_cons, if_pos hw]
  · intro hw hno
    rw [mergeFold_cons, if_neg (not_le.mpr hw)]
    rw [tryMerge_none opt cl.color cl.weight _ _ _ acc hno]
  · intro j₀ hj hw hm hfirst
    rw [mergeFold_cons, if_neg (not_le.mpr hw)]
    rw [tryMerge_first opt cl.color cl.weight _ _ _ acc j₀ hj hm hfirst]

/-- C3 witness: the criteria at the default options and a concrete
cluster, aggregate list and input list. -/
theorem merge_first_match_witness_C3 :
    (∀ (c : RGB) (hi si li : ℚ) (a : ColorAgg),
      mergeMatch defaultOptions c hi si li a = true ↔
        (Real.sqrt (rgb_dist2_raw c a.color : ℝ) / Real.sqrt 3 ≤
            ((defaultOptions.distance : ℚ) : ℝ) ∨
          (|si - a.s| < defaultOptions.satDist ∧
            |li - a.l| < defaultOptions.lightDist ∧
            hue_arc_dist hi a.h < defaultOptions.hueDist))) ∧
    ((sortClustersDesc []).Perm [] ∧
      (sortClustersDesc []).Pairwise fun a b => b.weight ≤ a.weight) ∧
    ((⟨⟨1, 0, 0⟩, 1⟩ : Cluster).weight ≤ 0 →
      mergeFold defaultOptions [] [⟨⟨1, 0, 0⟩, 1⟩] = mergeFold defaultOptions [] []) ∧
    (0 < (⟨⟨1, 0, 0⟩, 1⟩ : Cluster).weight →
      (∀ a ∈ ([] : List ColorAgg),
        mergeMatch defaultOptions (⟨⟨1, 0, 0⟩, 1⟩ : Cluster).color
          (rgb_to_hsl (1:ℚ) 0 0).1 (rgb_to_hsl (1:ℚ) 0 0).2.1
          (rgb_to_hsl (1:ℚ) 0 0).2.2 a = false) →
      mergeFold defaultOptions [] [⟨⟨1, 0, 0⟩, 1⟩] =
        mergeFold defaultOptions
          ([] ++ [{ color := (⟨⟨1, 0, 0⟩, 1⟩ : Cluster).color,
                    weight := (⟨⟨1, 0, 0⟩, 1⟩ : Cluster).weight,
                    h := (rgb_to_hsl (1:ℚ) 0 0).1,
                    s := (rgb_to_hsl (1:ℚ) 0 0).2.1,
                    l := (rgb_to_hsl (1:ℚ) 0 0).2.2 }]) []) ∧
    (∀ (j₀ : ℕ) (hj : j₀ < ([] : List ColorAgg).length),
      0 < (⟨⟨1, 0, 0⟩, 1⟩ : Cluster).weight →
      mergeMatch defaultOptions (⟨⟨1, 0, 0⟩, 1⟩ : Cluster).color
        (rgb_to_hsl (1:ℚ) 0 0).1 (rgb_to_hsl (1:ℚ) 0 0).2.1
        (rgb_to_hsl (1:ℚ) 0 0).2.2 (([] : List ColorAgg).get ⟨j₀, hj⟩) = true →
      (∀ (j : ℕ) (hlt : j < j₀),
        mergeMatch defaultOptions (⟨⟨1, 0, 0⟩, 1⟩ : Cluster).color
          (rgb_to_hsl (1:ℚ) 0 0).1 (rgb_to_hsl (1:ℚ) 0 0).2.1
          (rgb_to_hsl (1:ℚ) 0 0).2.2
          (([] : List ColorAgg).get ⟨j, hlt.trans hj⟩) = false) →
      mergeFold defaultOptions [] [⟨⟨1, 0, 0⟩, 1⟩] =
        mergeFold defaultOptions
          (([] : List ColorAgg).set j₀
            (mergeInto (([] : List ColorAgg).get ⟨j₀, hj⟩)
              (⟨⟨1, 0, 0⟩, 1⟩ : Cluster).color
              (⟨⟨1, 0, 0⟩, 1⟩ : Cluster).weight)) []) :=
  merge_first_match_C3 defaultOptions ⟨⟨1, 0, 0⟩, 1⟩ [] [] []
    (by norm_num [defaultOptions])

/-! ## Helper lemmas: HSL ranges -/

theorem rgb_to_hsl_mem (r g b : ℚ) (hr0 : 0 ≤ r) (hr1 : r ≤ 1)
    (hg0 : 0 ≤ g) (hg1 : g ≤ 1) (hb0 : 0 ≤ b) (hb1 : b ≤ 1) :
    0 ≤ (rgb_to_hsl r g b).1 ∧ (rgb_to_hsl r g b).1 < 1 ∧
      0 ≤ (rgb_to_hsl r g b).2.1 ∧ (rgb_to_hsl r g b).2.1 ≤ 1 ∧
      0 ≤ (rgb_to_hsl r g b).2.2 ∧ (rgb_to_hsl r g b).2.2 ≤ 1 := by
  have hMr : r ≤ max r (max g b) := le_max_left _ _
  have hMg : g ≤ max r (max g b) := le_trans (le_max_left _ _) (le_max_right _ _)
  have hMb : b ≤ max r (max g b) := le_trans (le_max_right _ _) (le_max_right _ _)
  have hmr : min r (min g b) ≤ r := min_le_left _ _
  have hmg : min r (min g b) ≤ g := le_trans (min_le_right _ _) (min_le_left _ _)
  have hmb : min r (min g b) ≤ b := le_trans (min_le_right _ _) (min_le_right _ _)
  have hM1 : max r (max g b) ≤ 1 := max_le hr1 (max_le hg1 hb1)
  have hm0 : 0 ≤ min r (min g b) := le_min hr0 (le_min hg0 hb0)
  have hM0 : 0 ≤ max r (max g b) := le_trans hr0 hMr
  have hm1 : min r (min g b) ≤ 1 := le_trans hmr hr1
  by_cases heq : max r (max g b) = min r (min g b)
  · have key : rgb_to_hsl r g b = (0, 0, (max r (max g b) + min r (min g b)) / 2) := by
      unfold rgb_to_hsl
      rw [if_pos heq]
    rw [key]
    refine ⟨le_refl 0, by norm_num, le_refl 0, by norm_num, ?_, ?_⟩
    · positivity
    · rw [div_le_one (by norm_num : (0:ℚ) < 2)]
      linarith
  · have hlt : min r (min g b) < max r (max g b) :=
      lt_of_le_of_ne (le_trans hmr hMr) fun hc => heq hc.symm
    have hd : 0 < max r (max g b) - min r (min g b) := by linarith
    have key : rgb_to_hsl r g b =
        ((if max r (max g b) = r then
            (g - b) / (max r (max g b) - min r (min g b)) +
              (if g < b then 6 else 0)
          else if max r (max g b) = g then
            (b - r) / (max r (max g b) - min r (min g b)) + 2
          else (r - g) / (max r (max g b) - min r (min g b)) + 4) / 6,
         (if (max r (max g b) + min r (min g b)) / 2 > 1/2 then
            (max r (max g b) - min r (min g b)) /
              (2 - max r (max g b) - min r (min g b))
          else
            (max r (max g b) - min r (min g b)) /
              (max r (max g b) + min r (min g b))),
         (max r (max g b) + min r (min g b)) / 2) := by
      unfold rgb_to_hsl
      rw [if_neg heq]
    rw [key]
    have hval_mem : 0 ≤ (if max r (max g b) = r then
          (g - b) / (max r (max g b) - min r (min g b)) +
            (if g < b then 6 else 0)
        else if max r (max g b) = g then
          (b - r) / (max r (max g b) - min r (min g b)) + 2
        else (r - g) / (max r (max g b) - min r (min g b)) + 4) ∧
        (if max r (max g b) = r then
          (g - b) / (max r (max g b) - min r (min g b)) +
            (if g < b then 6 else 0)
        else if max r (max g b) = g then
          (b - r) / (max r (max g b) - min r (min g b)) + 2
        else (r - g) / (max r (max g b) - min r (min g b)) + 4) < 6 := by
      by_cases h1 : max r (max g b) = r
      · rw [if_pos h1]
        by_cases h2 : g < b
        · rw [if_pos h2]
          have hlow : (-1 : ℚ) ≤ (g - b) / (max r (max g b) - min r (min g b)) := by
            rw [le_div_iff hd]
            linarith
          have hup : (g - b) / (max r (max g b) - min r (min g b)) < 0 :=
            div_neg_of_neg_of_pos (by linarith) hd
          constructor <;> linarith
        · rw [if_neg h2]
          have hlow : (0 : ℚ) ≤ (g - b) / (max r (max g b) - min r (min g b)) :=
            div_nonneg (by linarith [not_lt.mp h2]) (le_of_lt hd)
          have hup : (g - b) / (max r (max g b) - min r (min g b)) ≤ 1 := by
            rw [div_le_one hd]
            linarith
          constructor <;> linarith
      · rw [if_neg h1]
        by_cases h2 : max r (max g b) = g
        · rw [if_pos h2]
          have hlow : (-1 : ℚ) ≤ (b - r) / (max r (max g b) - min r (min g b)) := by
            rw [le_div_iff hd]
            linarith
          have hup : (b - r) / (max r (max g b) - min r (min g b)) ≤ 1 := by
            rw [div_le_one hd]
            linarith
          constructor <;> linarith
        · rw [if_neg h2]
          have hlow : (-1 : ℚ) ≤ (r - g) / (max r (max g b) - min r (min g b)) := by
            rw [le_div_iff hd]
            linarith
          have hup : (r - g) / (max r (max g b) - min r (min g b)) ≤ 1 := by
            rw [div_le_one hd]
            linarith
          constructor <;> linarith
    refine ⟨?_, ?_, ?_, ?_, ?_, ?_⟩
    · exact div_nonneg hval_mem.1 (by norm_num)
    · rw [div_lt_one (by norm_num : (0:ℚ) < 6)]
      exact hval_mem.2
    · by_cases hl : (max r (max g b) + min r (min g b)) / 2 > 1/2
      · rw [if_pos hl]
        have hden : 0 < 2 - max r (max g b) - min r (min g b) := by
          rcases lt_or_eq_of_le hM1 with hc | hc
          · linarith
          · have : min r (min g b) < 1 := by rw [← hc]; exact hlt
            linarith
        exact div_nonneg (le_of_lt hd) (le_of_lt hden)
      · rw [if_neg hl]
        have hden : 0 < max r (max g b) + min r (min g b) := by
          rcases lt_or_eq_of_le hm0 with hc | hc
          · linarith
          · have : 0 < max r (max g b) := by rw [hc]; exact hlt
            linarith
        exact div_nonneg (le_of_lt hd) (le_of_lt hden)
    · by_cases hl : (max r (max g b) + min r (min g b)) / 2 > 1/2
      · rw [if_pos hl]
        have hden : 0 < 2 - max r (max g b) - min r (min g b) := by
          rcases lt_or_eq_of_le hM1 with hc | hc
          · linarith
          · have : min r (min g b) < 1 := by rw [← hc]; exact hlt
            linarith
        rw [div_le_one hden]
        linarith
      · rw [if_neg hl]
        have hden : 0 < max r (max g b) + min r (min g b) := by
          rcases lt_or_eq_of_le hm0 with hc | hc
          · linarith
          · have : 0 < max r (max g b) := by rw [hc]; exact hlt
            linarith
        rw [div_le_one hden]
        linarith
    · positivity
    · rw [div_le_one (by norm_num : (0:ℚ) < 2)]
      linarith

/-! ## Helper lemmas: merge invariants -/

theorem mergeInto_WF (a : ColorAgg) (c : RGB) (w : ℚ) (ha : AggWF a)
    (hc : inBox c) (hw : 0 < w) :
    AggWF (mergeInto a c w) ∧ (mergeInto a c w).weight = a.weight + w := by
  obtain ⟨haw, ⟨har0, har1, hag0, hag1, hab0, hab1⟩, _⟩ := ha
  obtain ⟨hcr0, hcr1, hcg0, hcg1, hcb0, hcb1⟩ := hc
  have htw : (0:ℚ) < a.weight + w := by linarith
  have hcol : (mergeInto a c w).color =
      ⟨(a.color.r * a.weight + c.r * w) / (a.weight + w),
       (a.color.g * a.weight + c.g * w) / (a.weight + w),
       (a.color.b * a.weight + c.b * w) / (a.weight + w)⟩ := by
    show (if a.weight + w > 0 then _ else a.color) = _
    rw [if_pos htw]
  have hbox2 : inBox (mergeInto a c w).color := by
    rw [hcol]
    refine ⟨div_nonneg (by nlinarith) (le_of_lt htw), ?_,
      div_nonneg (by nlinarith) (le_of_lt htw), ?_,
      div_nonneg (by nlinarith) (le_of_lt htw), ?_⟩ <;>
      · rw [div_le_one htw]
        nlinarith
  exact ⟨⟨htw, hbox2, rfl⟩, rfl⟩

theorem tryMerge_WF (opt : Options) (c : RGB) (w hi si li : ℚ)
    (hc : inBox c) (hw : 0 < w) :
    ∀ (acc acc2 : List ColorAgg), (∀ a ∈ acc, AggWF a) →
      tryMerge opt c w hi si li acc = some acc2 →
      (∀ a ∈ acc2, AggWF a) ∧
        (acc2.map ColorAgg.weight).sum = (acc.map ColorAgg.weight).sum + w := by
  intro acc
  induction acc with
  | nil =>
    intro acc2 _ h
    simp [tryMerge] at h
  | cons a t ih =>
    intro acc2 hwf h
    unfold tryMerge at h
    by_cases hm : mergeMatch opt c hi si li a = true
    · rw [if_pos hm] at h
      rcases Option.some.injEq _ _ ▸ h with rfl
      have hmw := mergeInto_WF a c w (hwf a (List.mem_cons_self a t)) hc hw
      constructor
      · intro x hx
        rcases List.mem_cons.mp hx with h1 | h1
        · rw [h1]; exact hmw.1
        · exact hwf x (List.mem_cons_of_mem a h1)
      · simp only [List.map_cons, List.sum_cons, hmw.2]
        ring
    · rw [if_neg hm] at h
      rcases Option.map_eq_some'.mp h with ⟨t2, ht2, rfl⟩
      have h2 := ih t2 (fun x hx => hwf x (List.mem_cons_of_mem a hx)) ht2
      constructor
      · intro x hx
        rcases List.mem_cons.mp hx with h1 | h1
        · rw [h1]; exact hwf a (List.mem_cons_self a t)
        · exact h2.1 x h1
      · simp only [List.map_cons, List.sum_cons, h2.2]
        ring

theorem mergeFold_WF (opt : Options) :
    ∀ (cs : List Cluster) (acc : List ColorAgg),
      (∀ a ∈ acc, AggWF a) → (∀ cl ∈ cs, inBox cl.color) →
      (∀ a ∈ mergeFold opt acc cs, AggWF a) ∧
        ((mergeFold opt acc cs).map ColorAgg.weight).sum =
          (acc.map ColorAgg.weight).sum +
            ((cs.filter fun cl => decide (0 < cl.weight)).map
              Cluster.weight).sum := by
  intro cs
  induction cs with
  | nil =>
    intro acc hacc _
    exact ⟨hacc, by simp [mergeFold]⟩
  | cons cl rest ih =>
    intro acc hacc hbox
    rw [mergeFold_cons]
    by_cases hw : cl.weight ≤ 0
    · rw [if_pos hw]
      have hf : (cl :: rest).filter (fun cl => decide (0 < cl.weight)) =
          rest.filter (fun cl => decide (0 < cl.weight)) := by
        rw [List.filter_cons]
        simp [not_lt.mpr hw]
      rw [hf]
      exact ih acc hacc fun x hx => hbox x (List.mem_cons_of_mem cl hx)
    · rw [if_neg hw]
      push_neg at hw
      have hf : (cl :: rest).filter (fun cl => decide (0 < cl.weight)) =
          cl :: rest.filter (fun cl => decide (0 < cl.weight)) := by
        rw [List.filter_cons]
        simp [hw]
      have hboxcl : inBox cl.color := hbox cl (List.mem_cons_self cl rest)
      cases htm : tryMerge opt cl.color cl.weight
          (rgb_to_hsl cl.color.r cl.color.g cl.color.b).1
          (rgb_to_hsl cl.color.r cl.color.g cl.color.b).2.1
          (rgb_to_hsl cl.color.r cl.color.g cl.color.b).2.2 acc with
      | none =>
        have hnew : ∀ a ∈ acc ++ [{ color := cl.color, weight := cl.weight, h := (rgb_to_hsl cl.color.r cl.color.g cl.color.b).1, s := (rgb_to_hsl cl.color.r cl.color.g cl.color.b).2.1, l := (rgb_to_hsl cl.color.r cl.color.g cl.color.b).2.2 }], AggWF a := by
          intro x hx
          rcases List.mem_append.mp hx with h1 | h1
          · exact hacc x h1
          · simp only [List.mem_singleton] at h1
            rw [h1]
            exact ⟨hw, hboxcl, rfl⟩
        have hrec := ih _ hnew fun x hx => hbox x (List.mem_cons_of_mem cl hx)
        refine ⟨hrec.1, ?_⟩
        rw [hrec.2, hf]
        simp only [List.map_append, List.sum_append, List.map_cons,
          List.sum_cons, List.map_nil, List.sum_nil]
        ring
      | some acc2 =>
        have h2 := tryMerge_WF opt cl.color cl.weight _ _ _ hboxcl hw acc acc2
          hacc htm
        have hrec := ih acc2 h2.1 fun x hx => hbox x (List.mem_cons_of_mem cl hx)
        refine ⟨hrec.1, ?_⟩
        rw [hrec.2, h2.2, hf]
        simp only [List.map_cons, List.sum_cons]
        ring

theorem sum_filter_pos_le (l : List Cluster) (h : ∀ c ∈ l, 0 ≤ c.weight) :
    ((l.filter fun c => decide (0 < c.weight)).map Cluster.weight).sum ≤
      (l.map Cluster.weight).sum := by
  induction l with
  | nil => simp
  | cons a t ih =>
    have hrec := ih fun c hc => h c (List.mem_cons_of_mem a hc)
    rw [List.filter_cons]
    by_cases hp : 0 < a.weight
    · rw [if_pos (by simp [hp])]
      simp only [List.map_cons, List.sum_cons]
      linarith
    · rw [if_neg (by simp [hp])]
      have := h a (List.mem_cons_self a t)
      simp only [List.map_cons, List.sum_cons]
      linarith

theorem sum_map_div (l : List ℚ) (t : ℚ) :
    (l.map fun x => x / t).sum = l.sum / t := by
  induction l with
  | nil => simp
  | cons a r ih =>
    simp only [List.map_cons, List.sum_cons, ih]
    ring

/-! ## C4: output invariants of the merger -/

/-- C4: for nonnegative cluster weights with colors in the unit box and
`totalW` the total weight of all original clusters, every output
aggregate's RGB, hue, saturation and lightness lie in [0,1] (hue strictly
below 1), every area lies in [0,1], the areas are exactly the merged
weights divided by `totalW` (zero when the total is zero, in particular),
and the areas sum to at most 1. -/
theorem output_invariants_C4 (clusters : List Cluster) (opt : Options)
    (totalW : ℚ)
    (hw : ∀ c ∈ clusters, 0 ≤ c.weight)
    (hbox : ∀ c ∈ clusters, inBox c.color)
    (ht : totalW = (clusters.map Cluster.weight).sum) :
    (∀ a ∈ merge_colors clusters totalW opt,
      inBox a.color ∧ 0 ≤ a.h ∧ a.h < 1 ∧ 0 ≤ a.s ∧ a.s ≤ 1 ∧
        0 ≤ a.l ∧ a.l ≤ 1 ∧ 0 ≤ a.weight ∧ a.weight ≤ 1) ∧
    ((merge_colors clusters totalW opt).map ColorAgg.weight).sum ≤ 1 ∧
    (totalW = 0 → ∀ a ∈ merge_colors clusters totalW opt, a.weight = 0) ∧
    (merge_colors clusters totalW opt).map ColorAgg.weight =
      ((mergeFold opt [] (sortClustersDesc clusters)).map ColorAgg.weight).map
        (fun x => if totalW > 0 then x / totalW else 0) := by
  have hsortw : ∀ c ∈ sortClustersDesc clusters, 0 ≤ c.weight := fun c hc =>
    hw c ((sortClustersDesc_perm clusters).mem_iff.mp hc)
  have hsortbox : ∀ c ∈ sortClustersDesc clusters, inBox c.color := fun c hc =>
    hbox c ((sortClustersDesc_perm clusters).mem_iff.mp hc)
  have hsortsum : ((sortClustersDesc clusters).map Cluster.weight).sum =
      (clusters.map Cluster.weight).sum :=
    ((sortClustersDesc_perm clusters).map Cluster.weight).sum_eq
  have hfold := mergeFold_WF opt (sortClustersDesc clusters) []
    (by intro a ha; cases ha) hsortbox
  have hfold_sum_le : ((mergeFold opt [] (sortClustersDesc clusters)).map
      ColorAgg.weight).sum ≤ totalW := by
    rw [hfold.2]
    simp only [List.map_nil, List.sum_nil, zero_add]
    rw [ht, ← hsortsum]
    exact sum_filter_pos_le _ hsortw
  have hfoldpos : ∀ a ∈ mergeFold opt [] (sortClustersDesc clusters),
      0 < a.weight := fun a ha => (hfold.1 a ha).1
  have hmc : merge_colors clusters totalW opt =
      (mergeFold opt [] (sortClustersDesc clusters)).map
        (fun a => { a with weight := if totalW > 0 then a.weight / totalW else 0 }) :=
    rfl
  have hmapw : (merge_colors clusters totalW opt).map ColorAgg.weight =
      ((mergeFold opt [] (sortClustersDesc clusters)).map ColorAgg.weight).map
        (fun x => if totalW > 0 then x / totalW else 0) := by
    rw [hmc, List.map_map, List.map_map]
    rfl
  refine ⟨?_, ?_, ?_, hmapw⟩
  · intro a ha
    rw [hmc] at ha
    rcases List.mem_map.mp ha with ⟨b, hb, rfl⟩
    obtain ⟨hbw, hbbox, hbhsl⟩ := hfold.1 b hb
    obtain ⟨hr0, hr1, hg0, hg1, hb0, hb1⟩ := hbbox
    have hhsl := rgb_to_hsl_mem b.color.r b.color.g b.color.b hr0 hr1 hg0 hg1
      hb0 hb1
    have hh : b.h = (rgb_to_hsl b.color.r b.color.g b.color.b).1 := by
      have := congrArg Prod.fst hbhsl
      simpa using this
    have hs : b.s = (rgb_to_hsl b.color.r b.color.g b.color.b).2.1 := by
      have := congrArg (fun p => p.2.1) hbhsl
      simpa using this
    have hl : b.l = (rgb_to_hsl b.color.r b.color.g b.color.b).2.2 := by
      have := congrArg (fun p => p.2.2) hbhsl
      simpa using this
    refine ⟨⟨hr0, hr1, hg0, hg1, hb0, hb1⟩, ?_, ?_, ?_, ?_, ?_, ?_, ?_, ?_⟩
    · rw [hh]; exact hhsl.1
    · rw [hh]; exact hhsl.2.1
    · rw [hs]; exact hhsl.2.2.1
    · rw [hs]; exact hhsl.2.2.2.1
    · rw [hl]; exact hhsl.2.2.2.2.1
    · rw [hl]; exact hhsl.2.2.2.2.2
    · by_cases hpos : totalW > 0
      · simp only [hpos, if_pos]
        exact div_nonneg (le_of_lt hbw) (le_of_lt hpos)
      · simp only [hpos, if_neg, not_false_iff]
        exact le_refl 0
    · by_cases hpos : totalW > 0
      · simp only [hpos, if_pos]
        rw [div_le_one hpos]
        have hble : b.weight ≤ ((mergeFold opt []
            (sortClustersDesc clusters)).map ColorAgg.weight).sum := by
          refine List.single_le_sum ?_ _ (List.mem_map_of_mem ColorAgg.weight hb)
          intro x hx
          rcases List.mem_map.mp hx with ⟨y, hy, rfl⟩
          exact le_of_lt (hfoldpos y hy)
        linarith
      · simp only [hpos, if_neg, not_false_iff]
        norm_num
  · rw [hmapw]
    by_cases hpos : totalW > 0
    · simp only [hpos, if_pos]
      rw [sum_map_div]
      rw [div_le_one hpos]
      exact hfold_sum_le
    · have hz : ∀ x ∈ ((mergeFold opt [] (sortClustersDesc clusters)).map
          ColorAgg.weight).map (fun x => if totalW > 0 then x / totalW else 0),
          x = 0 := by
        intro x hx
        rcases List.mem_map.mp hx with ⟨y, _, rfl⟩
        simp [hpos]
      rw [List.sum_eq_zero hz]
      norm_num
  · intro h0 a ha
    rw [hmc] at ha
    rcases List.mem_map.mp ha with ⟨b, _, rfl⟩
    simp [h0]

/-- C4 witness: a single unit-weight white cluster with total weight 1. -/
theorem output_invariants_witness_C4 :
    (∀ a ∈ merge_colors [⟨⟨1, 1, 1⟩, 1⟩] 1 defaultOptions,
      inBox a.color ∧ 0 ≤ a.h ∧ a.h < 1 ∧ 0 ≤ a.s ∧ a.s ≤ 1 ∧
        0 ≤ a.l ∧ a.l ≤ 1 ∧ 0 ≤ a.weight ∧ a.weight ≤ 1) ∧
    ((merge_colors [⟨⟨1, 1, 1⟩, 1⟩] 1 defaultOptions).map
      ColorAgg.weight).sum ≤ 1 ∧
    ((1 : ℚ) = 0 → ∀ a ∈ merge_colors [⟨⟨1, 1, 1⟩, 1⟩] 1 defaultOptions,
      a.weight = 0) ∧
    (merge_colors [⟨⟨1, 1, 1⟩, 1⟩] 1 defaultOptions).map ColorAgg.weight =
      ((mergeFold defaultOptions []
        (sortClustersDesc [⟨⟨1, 1, 1⟩, 1⟩])).map ColorAgg.weight).map
        (fun x => if (1 : ℚ) > 0 then x / 1 else 0) :=
  output_invariants_C4 [⟨⟨1, 1, 1⟩, 1⟩] defaultOptions 1
    (by intro c hc; simp only [List.mem_singleton] at hc; rw [hc]; norm_num)
    (by intro c hc; simp only [List.mem_singleton] at hc; rw [hc]
        norm_num [inBox])
    (by simp)

/-! ## Helper lemmas: the assignment pass -/

theorem nearestIdx_d2_nonneg (cs : List Cluster) (s : RGB) :
    0 ≤ (nearestIdx cs s).2 := by
  unfold nearestIdx
  have key : ∀ (l : List ℕ) (acc : ℕ × ℚ), 0 ≤ acc.2 →
      0 ≤ (l.foldl (fun acc k =>
        let d := rgb_dist2_raw s (cs.getD k default).color
        if d < acc.2 then (k, d) else acc) acc).2 := by
    intro l
    induction l with
    | nil => intro acc h; exact h
    | cons a t ih =>
      intro acc h
      simp only [List.foldl_cons]
      by_cases hlt : rgb_dist2_raw s (cs.getD a default).color < acc.2
      · rw [if_pos hlt]
        exact ih _ (rgb_dist2_raw_nonneg _ _)
      · rw [if_neg hlt]
        exact ih _ h
  refine key _ _ ?_
  unfold bigStart
  positivity

/-- The `assignPass` fold restricted to the first `n` samples. -/
theorem assignPass_run (samples : List RGB) (cs : List Cluster) (asn : ℕ → ℤ) :
    ∀ n : ℕ,
      (∀ j, ((List.range n).foldl (assignStep samples cs)
          { weights := fun _ => 0, sr := fun _ => 0, sg := fun _ => 0,
            sb := fun _ => 0, assign := asn, bestd2 := fun _ => 0,
            changed := false }).assign j =
        if j < n then ((nearestIdx cs (samples.getD j default)).1 : ℤ)
        else asn j) ∧
      (∀ j, ((List.range n).foldl (assignStep samples cs)
          { weights := fun _ => 0, sr := fun _ => 0, sg := fun _ => 0,
            sb := fun _ => 0, assign := asn, bestd2 := fun _ => 0,
            changed := false }).bestd2 j =
        if j < n then (nearestIdx cs (samples.getD j default)).2 else 0) ∧
      (((List.range n).foldl (assignStep samples cs)
          { weights := fun _ => 0, sr := fun _ => 0, sg := fun _ => 0,
            sb := fun _ => 0, assign := asn, bestd2 := fun _ => 0,
            changed := false }).changed = true ↔
        ∃ i, i < n ∧ asn i ≠ ((nearestIdx cs (samples.getD i default)).1 : ℤ)) := by
  intro n
  induction n with
  | zero =>
    refine ⟨fun j => by simp, fun j => by simp, ?_⟩
    simp
  | succ n ih =>
    obtain ⟨ihA, ihB, ihC⟩ := ih
    have hstep : (List.range (n + 1)).foldl (assignStep samples cs)
        { weights := fun _ => 0, sr := fun _ => 0, sg := fun _ => 0,
          sb := fun _ => 0, assign := asn, bestd2 := fun _ => 0,
          changed := false } =
        assignStep samples cs ((List.range n).foldl (assignStep samples cs)
          { weights := fun _ => 0, sr := fun _ => 0, sg := fun _ => 0,
            sb := fun _ => 0, assign := asn, bestd2 := fun _ => 0,
            changed := false }) n := by
      rw [List.range_succ, List.foldl_append, List.foldl_cons, List.foldl_nil]
    rw [hstep]
    refine ⟨?_, ?_, ?_⟩
    · intro j
      show Function.update _ n _ j = _
      by_cases hj : j = n
      · rw [hj, Function.update_same, if_pos (Nat.lt_succ_self n)]
      · rw [Function.update_noteq hj, ihA j]
        by_cases hjn : j < n
        · rw [if_pos hjn, if_pos (Nat.lt_succ_of_lt hjn)]
        · rw [if_neg hjn, if_neg (by omega)]
    · intro j
      show Function.update _ n _ j = _
      by_cases hj : j = n
      · rw [hj, Function.update_same, if_pos (Nat.lt_succ_self n)]
      · rw [Function.update_noteq hj, ihB j]
        by_cases hjn : j < n
        · rw [if_pos hjn, if_pos (Nat.lt_succ_of_lt hjn)]
        · rw [if_neg hjn, if_neg (by omega)]
    · show (_ || decide _) = true ↔ _
      rw [Bool.or_eq_true, decide_eq_true_iff, ihC]
      rw [ihA n, if_neg (lt_irrefl n)]
      constructor
      · rintro (⟨i, hi, hne⟩ | hne)
        · exact ⟨i, Nat.lt_succ_of_lt hi, hne⟩
        · exact ⟨n, Nat.lt_succ_self n, hne⟩
      · rintro ⟨i, hi, hne⟩
        by_cases hin : i = n
        · right; rw [← hin]; exact hne
        · left; exact ⟨i, by omega, hne⟩

theorem assignPass_facts (samples : List RGB) (cs : List Cluster)
    (asn : ℕ → ℤ) :
    (∀ j, (assignPass samples cs asn).assign j =
      if j < samples.length
      then ((nearestIdx cs (samples.getD j default)).1 : ℤ) else asn j) ∧
    (∀ j, (assignPass samples cs asn).bestd2 j =
      if j < samples.length
      then (nearestIdx cs (samples.getD j default)).2 else 0) ∧
    ((assignPass samples cs asn).changed = false ↔
      ∀ i < samples.length,
        asn i = ((nearestIdx cs (samples.getD i default)).1 : ℤ)) := by
  obtain ⟨hA, hB, hC⟩ := assignPass_run samples cs asn samples.length
  refine ⟨hA, hB, ?_⟩
  unfold assignPass
  rw [← Bool.not_eq_true, hC]
  simp only [not_exists, not_and, ne_eq, not_not]

/-! ## Helper lemmas: the farthest-sample scan and the reset loop -/

theorem findFarthest_spec (d : ℕ → ℚ) :
    ∀ n : ℕ, 0 < n → (∀ i < n, 0 ≤ d i) →
      ∃ i₀ : ℕ, i₀ < n ∧ findFarthest d n = ((i₀ : ℤ), d i₀) ∧
        (∀ j < n, d j ≤ d i₀) ∧ (∀ j < i₀, d j < d i₀) := by
  intro n
  induction n with
  | zero => intro h; exact absurd h (lt_irrefl 0)
  | succ n ih =>
    intro _ hd
    by_cases hn : 0 < n
    · obtain ⟨i₀, hi₀, heq, hmax, hfirst⟩ :=
        ih hn fun i hi => hd i (Nat.lt_succ_of_lt hi)
      have hstep : findFarthest d (n + 1) =
          if d n > (findFarthest d n).2 then ((n : ℤ), d n)
          else findFarthest d n := by
        unfold findFarthest
        rw [List.range_succ, List.foldl_append, List.foldl_cons, List.foldl_nil]
      rw [heq] at hstep
      by_cases hgt : d n > d i₀
      · refine ⟨n, Nat.lt_succ_self n, ?_, ?_, ?_⟩
        · rw [hstep, if_pos hgt]
        · intro j hj
          rcases Nat.lt_succ_iff_lt_or_eq.mp hj with h1 | h1
          · exact le_of_lt (lt_of_le_of_lt (hmax j h1) hgt)
          · rw [h1]
        · intro j hj
          exact lt_of_le_of_lt (hmax j hj) hgt
      · refine ⟨i₀, Nat.lt_succ_of_lt hi₀, ?_, ?_, hfirst⟩
        · rw [hstep, if_neg hgt]
        · intro j hj
          rcases Nat.lt_succ_iff_lt_or_eq.mp hj with h1 | h1
          · exact hmax j h1
          · rw [h1]; exact not_lt.mp hgt
    · have hn0 : n = 0 := by omega
      subst hn0
      refine ⟨0, Nat.lt_succ_self 0, ?_, ?_, ?_⟩
      · unfold findFarthest
        rw [show List.range 1 = [0] by simp [List.range_succ]]
        rw [List.foldl_cons, List.foldl_nil]
        rw [if_pos (lt_of_lt_of_le (by norm_num) (hd 0 (Nat.lt_succ_self 0)))]
      · intro j hj
        have : j = 0 := by omega
        rw [this]
      · intro j hj
        exact absurd hj (Nat.not_lt_zero j)

theorem findFarthest_eq (d : ℕ → ℚ) (n : ℕ) (i₀ : ℕ) (hn : 0 < n)
    (hd : ∀ i < n, 0 ≤ d i) (hi : i₀ < n)
    (hmax : ∀ j < n, d j ≤ d i₀) (hfirst : ∀ j < i₀, d j < d i₀) :
    findFarthest d n = ((i₀ : ℤ), d i₀) := by
  obtain ⟨j₀, hj₀, heq, hmax2, hfirst2⟩ := findFarthest_spec d n hn hd
  have : j₀ = i₀ := by
    by_contra hne
    rcases Nat.lt_or_ge j₀ i₀ with h1 | h1
    · exact absurd (hmax2 i₀ hi) (not_le.mpr (hfirst j₀ h1))
    · have h2 : i₀ < j₀ := by omega
      exact absurd (hmax j₀ hj₀) (not_le.mpr (hfirst2 i₀ h2))
  rw [heq, this]

theorem resetStep_keep (samples : List RGB) (K : ℕ) (st : PassState) (k : ℕ)
    (h : 0 < st.weights k) : resetStep samples K st k = st := by
  unfold resetStep
  rw [if_pos h]

theorem resetStep_changed_mono (samples : List RGB) (K : ℕ) (st : PassState)
    (k : ℕ) (h : st.changed = true) :
    (resetStep samples K st k).changed = true := by
  simp only [resetStep]
  split
  · exact h
  · split
    · rfl
    · exact h

theorem resetFold_changed_mono (samples : List RGB) (K : ℕ) :
    ∀ (l : List ℕ) (st : PassState), st.changed = true →
      (l.foldl (resetStep samples K) st).changed = true := by
  intro l
  induction l with
  | nil => intro st h; exact h
  | cons a t ih =>
    intro st h
    exact ih _ (resetStep_changed_mono samples K st a h)

theorem resetFold_id (samples : List RGB) (K : ℕ) :
    ∀ (l : List ℕ) (st : PassState), (∀ k ∈ l, 0 < st.weights k) →
      l.foldl (resetStep samples K) st = st := by
  intro l
  induction l with
  | nil => intro st _; rfl
  | cons a t ih =>
    intro st h
    simp only [List.foldl_cons]
    rw [resetStep_keep samples K st a (h a (List.mem_cons_self a t))]
    exact ih st fun k hk => h k (List.mem_cons_of_mem a hk)

theorem resetStep_fires (samples : List RGB) (K : ℕ) (st : PassState) (k : ℕ)
    (hk : ¬ 0 < st.weights k) (hn : samples.length ≠ 0)
    (hd : ∀ i < samples.length, 0 ≤ st.bestd2 i) :
    (resetStep samples K st k).changed = true := by
  obtain ⟨i₀, _, heq, _, _⟩ :=
    findFarthest_spec st.bestd2 samples.length (Nat.pos_of_ne_zero hn) hd
  simp only [resetStep]
  rw [if_neg hk, heq]
  rw [if_pos (show (((i₀ : ℤ), st.bestd2 i₀)).1 ≥ 0 by
    show (0 : ℤ) ≤ (i₀ : ℤ)
    positivity)]

theorem resetFold_char (samples : List RGB) (st : PassState)
    (hn : samples.length ≠ 0)
    (hd : ∀ i < samples.length, 0 ≤ st.bestd2 i) :
    ∀ K : ℕ,
      (((List.range K).foldl (resetStep samples K) st).changed = false ↔
        (st.changed = false ∧ ∀ k < K, 0 < st.weights k)) := by
  have main : ∀ (KR K : ℕ),
      (((List.range K).foldl (resetStep samples KR) st).changed = false ↔
        (st.changed = false ∧ ∀ k < K, 0 < st.weights k)) := by
    intro KR K
    induction K with
    | zero =>
      simp only [List.range_zero, List.foldl_nil]
      constructor
      · intro h; exact ⟨h, fun k hk => absurd hk (Nat.not_lt_zero k)⟩
      · intro h; exact h.1
    | succ K ih =>
      rw [List.range_succ, List.foldl_append, List.foldl_cons, List.foldl_nil]
      by_cases hch : ((List.range K).foldl (resetStep samples KR) st).changed = true
      · rw [Bool.eq_false_iff]
        constructor
        · intro h
          exact absurd (resetStep_changed_mono samples KR _ K hch) h
        · intro h
          exfalso
          have := ih.mpr ⟨h.1, fun k hk => h.2 k (Nat.lt_succ_of_lt hk)⟩
          rw [this] at hch
          cases hch
      · have hch' : ((List.range K).foldl (resetStep samples KR) st).changed = false :=
          Bool.not_eq_true _ ▸ hch
        obtain ⟨hst, hall⟩ := ih.mp hch'
        have hid : (List.range K).foldl (resetStep samples KR) st = st :=
          resetFold_id samples KR _ st fun k hk =>
            hall k (List.mem_range.mp hk)
        rw [hid]
        by_cases hK : 0 < st.weights K
        · rw [resetStep_keep samples KR st K hK]
          constructor
          · intro h
            refine ⟨h, fun k hk => ?_⟩
            rcases Nat.lt_succ_iff_lt_or_eq.mp hk with h1 | h1
            · exact hall k h1
            · rw [h1]; exact hK
          · intro h; exact h.1
        · have hfire := resetStep_fires samples KR st K hK hn hd
          rw [hfire]
          constructor
          · intro h; cases h
          · rintro ⟨_, hall2⟩
            exact absurd (hall2 K (Nat.lt_succ_self K)) hK
  exact fun K => main K K

/-! ## Helper lemmas: the iteration loop -/

theorem kmeansIter_changed_iff (samples : List RGB) (cs : List Cluster)
    (asn : ℕ → ℤ) (hn : samples.length ≠ 0) :
    ((kmeansIter samples cs asn).2.2 = false ↔
      ((∀ i < samples.length,
          asn i = ((nearestIdx cs (samples.getD i default)).1 : ℤ)) ∧
        ∀ k < cs.length, 0 < (assignPass samples cs asn).weights k)) := by
  obtain ⟨hA, hB, hC⟩ := assignPass_facts samples cs asn
  have hd : ∀ i < samples.length, 0 ≤ (assignPass samples cs asn).bestd2 i := by
    intro i hi
    rw [hB i, if_pos hi]
    exact nearestIdx_d2_nonneg cs (samples.getD i default)
  have hiter : (kmeansIter samples cs asn).2.2 =
      ((List.range cs.length).foldl (resetStep samples cs.length)
        (assignPass samples cs asn)).changed := rfl
  rw [hiter, resetFold_char samples (assignPass samples cs asn) hn hd cs.length,
    hC]

theorem kmeansStates_shift (samples : List RGB) (cs : List Cluster)
    (asn : ℕ → ℤ) :
    ∀ u : ℕ, kmeansStates samples cs asn (u + 1) =
      kmeansStates samples (kmeansIter samples cs asn).1
        (kmeansIter samples cs asn).2.1 u := by
  intro u
  induction u with
  | zero => rfl
  | succ u ih =>
    show (let p := kmeansStates samples cs asn (u + 1);
      ((kmeansIter samples p.1 p.2).1, (kmeansIter samples p.1 p.2).2.1)) = _
    rw [ih]
    rfl

theorem iterChangedAt_shift (samples : List RGB) (cs : List Cluster)
    (asn : ℕ → ℤ) (u : ℕ) :
    iterChangedAt samples cs asn (u + 1) =
      iterChangedAt samples (kmeansIter samples cs asn).1
        (kmeansIter samples cs asn).2.1 u := by
  unfold iterChangedAt
  rw [kmeansStates_shift]

theorem kmeansLoop_spec (samples : List RGB) :
    ∀ (fuel : ℕ) (cs : List Cluster) (asn : ℕ → ℤ),
      (kmeansLoop samples fuel cs asn).2 ≤ fuel ∧
      (fuel ≠ 0 → 0 < (kmeansLoop samples fuel cs asn).2) ∧
      (kmeansLoop samples fuel cs asn).1 =
        (kmeansStates samples cs asn (kmeansLoop samples fuel cs asn).2).1 ∧
      (∀ u, u + 1 < (kmeansLoop samples fuel cs asn).2 →
        iterChangedAt samples cs asn u = true) ∧
      ((kmeansLoop samples fuel cs asn).2 < fuel →
        iterChangedAt samples cs asn
          ((kmeansLoop samples fuel cs asn).2 - 1) = false) := by
  intro fuel
  induction fuel with
  | zero =>
    intro cs asn
    have h0 : (kmeansLoop samples 0 cs asn).2 = 0 := rfl
    refine ⟨by omega, fun h => absurd rfl h, rfl, ?_, ?_⟩
    · intro u hu; omega
    · intro hu; omega
  | succ fuel ih =>
    intro cs asn
    have hunf : kmeansLoop samples (fuel + 1) cs asn =
        if (kmeansIter samples cs asn).2.2 = true then
          ((kmeansLoop samples fuel (kmeansIter samples cs asn).1
              (kmeansIter samples cs asn).2.1).1,
            (kmeansLoop samples fuel (kmeansIter samples cs asn).1
              (kmeansIter samples cs asn).2.1).2 + 1)
        else ((kmeansIter samples cs asn).1, 1) := rfl
    rw [hunf]
    by_cases hch : (kmeansIter samples cs asn).2.2 = true
    · obtain ⟨ih1, ih2, ih3, ih4, ih5⟩ :=
        ih (kmeansIter samples cs asn).1 (kmeansIter samples cs asn).2.1
      rw [if_pos hch]
      refine ⟨?_, ?_, ?_, ?_, ?_⟩
      · show (kmeansLoop samples fuel (kmeansIter samples cs asn).1
            (kmeansIter samples cs asn).2.1).2 + 1 ≤ fuel + 1
        omega
      · intro _
        show 0 < (kmeansLoop samples fuel (kmeansIter samples cs asn).1
            (kmeansIter samples cs asn).2.1).2 + 1
        omega
      · show (kmeansLoop samples fuel (kmeansIter samples cs asn).1
            (kmeansIter samples cs asn).2.1).1 =
          (kmeansStates samples cs asn
            ((kmeansLoop samples fuel (kmeansIter samples cs asn).1
              (kmeansIter samples cs asn).2.1).2 + 1)).1
        rw [ih3, kmeansStates_shift]
      · intro u hu
        have hu' : u + 1 < (kmeansLoop samples fuel
            (kmeansIter samples cs asn).1
            (kmeansIter samples cs asn).2.1).2 + 1 := hu
        match u with
        | 0 => exact hch
        | Nat.succ v =>
          rw [iterChangedAt_shift]
          exact ih4 v (by omega)
      · intro hlt
        have hlt2 : (kmeansLoop samples fuel (kmeansIter samples cs asn).1
            (kmeansIter samples cs asn).2.1).2 + 1 < fuel + 1 := hlt
        have hlt' : (kmeansLoop samples fuel (kmeansIter samples cs asn).1
            (kmeansIter samples cs asn).2.1).2 < fuel := by omega
        have hpos : 0 < (kmeansLoop samples fuel (kmeansIter samples cs asn).1
            (kmeansIter samples cs asn).2.1).2 := ih2 (by omega)
        have hprev := ih5 hlt'
        show iterChangedAt samples cs asn
          ((kmeansLoop samples fuel (kmeansIter samples cs asn).1
            (kmeansIter samples cs asn).2.1).2 + 1 - 1) = false
        have hrw : (kmeansLoop samples fuel (kmeansIter samples cs asn).1
            (kmeansIter samples cs asn).2.1).2 + 1 - 1 =
            ((kmeansLoop samples fuel (kmeansIter samples cs asn).1
              (kmeansIter samples cs asn).2.1).2 - 1) + 1 := by omega
        rw [hrw, iterChangedAt_shift]
        exact hprev
    · have hch' : (kmeansIter samples cs asn).2.2 = false :=
        Bool.not_eq_true _ ▸ hch
      rw [if_neg hch]
      refine ⟨?_, ?_, rfl, ?_, ?_⟩
      · show 1 ≤ fuel + 1
        omega
      · intro _
        show (0 : ℕ) < 1
        omega
      · intro u hu
        have hu' : u + 1 < 1 := hu
        omega
      · intro _
        exact hch'

theorem kmeans_run_ok (samples : List RGB) (cs : List Cluster) (iters : ℕ)
    (hn : samples.length ≠ 0) (hK : cs.length ≠ 0) :
    kmeans_run kallocOk samples cs iters =
      kmeansLoop samples iters cs (fun _ => -1) := by
  unfold kmeans_run
  rw [if_neg (by push_neg; exact ⟨hn, hK⟩)]
  rw [if_neg (by simp [kallocOk])]

/-! ## C6: iteration cap and early termination -/

/-- C6: with all allocations succeeding, `kmeans_run` over `iters = 12`
(the value `extract_colors_core` passes) executes at most 12
Assign → Reset-Empty → Update iterations; every iteration before the last
had its `changed` flag set, it stops before the cap exactly after an
iteration whose flag stayed clear, and an iteration's flag stays clear
precisely when no sample was reassigned (every previous assignment already
names the nearest centroid) and no empty-cluster recovery fired (every
cluster's accumulated weight is positive after the assignment pass). -/
theorem lloyd_termination_C6 (samples : List RGB) (cs : List Cluster)
    (hn : samples.length ≠ 0) (hK : cs.length ≠ 0) :
    (kmeans_run kallocOk samples cs 12).2 ≤ 12 ∧
    (kmeans_run kallocOk samples cs 12).1 =
      (kmeansStates samples cs (fun _ => -1)
        (kmeans_run kallocOk samples cs 12).2).1 ∧
    (∀ u, u + 1 < (kmeans_run kallocOk samples cs 12).2 →
      iterChangedAt samples cs (fun _ => -1) u = true) ∧
    ((kmeans_run kallocOk samples cs 12).2 < 12 →
      0 < (kmeans_run kallocOk samples cs 12).2 ∧
      iterChangedAt samples cs (fun _ => -1)
        ((kmeans_run kallocOk samples cs 12).2 - 1) = false) ∧
    (∀ (cs2 : List Cluster) (asn2 : ℕ → ℤ),
      (kmeansIter samples cs2 asn2).2.2 = false ↔
        ((∀ i < samples.length,
            asn2 i = ((nearestIdx cs2 (samples.getD i default)).1 : ℤ)) ∧
          ∀ k < cs2.length, 0 < (assignPass samples cs2 asn2).weights k)) := by
  obtain ⟨h1, h2, h3, h4, h5⟩ := kmeansLoop_spec samples 12 cs (fun _ => -1)
  rw [kmeans_run_ok samples cs 12 hn hK]
  refine ⟨h1, h3, h4, ?_, ?_⟩
  · intro hlt
    exact ⟨h2 (by omega), h5 hlt⟩
  · intro cs2 asn2
    exact kmeansIter_changed_iff samples cs2 asn2 hn

/-- C6 witness: a one-sample, one-cluster run. -/
theorem lloyd_termination_witness_C6 :
    (kmeans_run kallocOk [⟨1, 1, 1⟩] [⟨⟨1, 1, 1⟩, 0⟩] 12).2 ≤ 12 ∧
    (kmeans_run kallocOk [⟨1, 1, 1⟩] [⟨⟨1, 1, 1⟩, 0⟩] 12).1 =
      (kmeansStates [⟨1, 1, 1⟩] [⟨⟨1, 1, 1⟩, 0⟩] (fun _ => -1)
        (kmeans_run kallocOk [⟨1, 1, 1⟩] [⟨⟨1, 1, 1⟩, 0⟩] 12).2).1 ∧
    (∀ u, u + 1 < (kmeans_run kallocOk [⟨1, 1, 1⟩] [⟨⟨1, 1, 1⟩, 0⟩] 12).2 →
      iterChangedAt [⟨1, 1, 1⟩] [⟨⟨1, 1, 1⟩, 0⟩] (fun _ => -1) u = true) ∧
    ((kmeans_run kallocOk [⟨1, 1, 1⟩] [⟨⟨1, 1, 1⟩, 0⟩] 12).2 < 12 →
      0 < (kmeans_run kallocOk [⟨1, 1, 1⟩] [⟨⟨1, 1, 1⟩, 0⟩] 12).2 ∧
      iterChangedAt [⟨1, 1, 1⟩] [⟨⟨1, 1, 1⟩, 0⟩] (fun _ => -1)
        ((kmeans_run kallocOk [⟨1, 1, 1⟩] [⟨⟨1, 1, 1⟩, 0⟩] 12).2 - 1) =
        false) ∧
    (∀ (cs2 : List Cluster) (asn2 : ℕ → ℤ),
      (kmeansIter [⟨1, 1, 1⟩] cs2 asn2).2.2 = false ↔
        ((∀ i < ([⟨1, 1, 1⟩] : List RGB).length,
            asn2 i =
              ((nearestIdx cs2 (([⟨1, 1, 1⟩] : List RGB).getD i default)).1 :
                ℤ)) ∧
          ∀ k < cs2.length,
            0 < (assignPass [⟨1, 1, 1⟩] cs2 asn2).weights k)) :=
  lloyd_termination_C6 [⟨1, 1, 1⟩] [⟨⟨1, 1, 1⟩, 0⟩] (by decide) (by decide)

/-! ## Helper lemmas: positive aggregate weights -/

theorem tryMerge_pos (opt : Options) (c : RGB) (w hi si li : ℚ) (hw : 0 < w) :
    ∀ (acc acc2 : List ColorAgg), (∀ a ∈ acc, 0 < a.weight) →
      tryMerge opt c w hi si li acc = some acc2 → ∀ a ∈ acc2, 0 < a.weight := by
  intro acc
  induction acc with
  | nil =>
    intro acc2 _ h
    simp [tryMerge] at h
  | cons a t ih =>
    intro acc2 hpos h
    unfold tryMerge at h
    by_cases hm : mergeMatch opt c hi si li a = true
    · rw [if_pos hm] at h
      rcases Option.some.injEq _ _ ▸ h with rfl
      intro x hx
      rcases List.mem_cons.mp hx with h1 | h1
      · rw [h1]
        show 0 < a.weight + w
        have := hpos a (List.mem_cons_self a t)
        linarith
      · exact hpos x (List.mem_cons_of_mem a h1)
    · rw [if_neg hm] at h
      rcases Option.map_eq_some'.mp h with ⟨t2, ht2, rfl⟩
      intro x hx
      rcases List.mem_cons.mp hx with h1 | h1
      · rw [h1]; exact hpos a (List.mem_cons_self a t)
      · exact ih t2 (fun y hy => hpos y (List.mem_cons_of_mem a hy)) ht2 x h1

theorem mergeFold_pos (opt : Options) :
    ∀ (cs : List Cluster) (acc : List ColorAgg), (∀ a ∈ acc, 0 < a.weight) →
      ∀ a ∈ mergeFold opt acc cs, 0 < a.weight := by
  intro cs
  induction cs with
  | nil => intro acc hacc; exact hacc
  | cons cl rest ih =>
    intro acc hacc
    rw [mergeFold_cons]
    by_cases hw : cl.weight ≤ 0
    · rw [if_pos hw]
      exact ih acc hacc
    · rw [if_neg hw]
      push_neg at hw
      cases htm : tryMerge opt cl.color cl.weight
          (rgb_to_hsl cl.color.r cl.color.g cl.color.b).1
          (rgb_to_hsl cl.color.r cl.color.g cl.color.b).2.1
          (rgb_to_hsl cl.color.r cl.color.g cl.color.b).2.2 acc with
      | none =>
        refine ih _ ?_
        intro x hx
        rcases List.mem_append.mp hx with h1 | h1
        · exact hacc x h1
        · simp only [List.mem_singleton] at h1
          rw [h1]
          exact hw
      | some acc2 =>
        exact ih acc2 (tryMerge_pos opt cl.color cl.weight _ _ _ hw acc acc2
          hacc htm)

theorem nonneg_sum_zero (l : List ℚ) (h : ∀ x ∈ l, 0 ≤ x) (hs : l.sum ≤ 0) :
    ∀ x ∈ l, x = 0 := by
  induction l with
  | nil => intro x hx; cases hx
  | cons a t ih =>
    have hts : 0 ≤ t.sum :=
      List.sum_nonneg fun x hx => h x (List.mem_cons_of_mem a hx)
    have ha : 0 ≤ a := h a (List.mem_cons_self a t)
    rw [List.sum_cons] at hs
    intro x hx
    rcases List.mem_cons.mp hx with h1 | h1
    · rw [h1]; linarith
    · exact ih (fun y hy => h y (List.mem_cons_of_mem a hy)) (by linarith) x h1

theorem merge_colors_pos (clusters : List Cluster) (opt : Options)
    (totalW : ℚ) (hw : ∀ c ∈ clusters, 0 ≤ c.weight)
    (ht : totalW = (clusters.map Cluster.weight).sum) :
    ∀ a ∈ merge_colors clusters totalW opt, 0 < a.weight := by
  intro a ha
  by_cases hpos : 0 < totalW
  · have hmc : merge_colors clusters totalW opt =
        (mergeFold opt [] (sortClustersDesc clusters)).map
          (fun b => { b with
            weight := if totalW > 0 then b.weight / totalW else 0 }) := rfl
    rw [hmc] at ha
    rcases List.mem_map.mp ha with ⟨b, hb, rfl⟩
    have hbpos := mergeFold_pos opt (sortClustersDesc clusters) []
      (by intro x hx; cases hx) b hb
    show 0 < (if totalW > 0 then b.weight / totalW else 0)
    rw [if_pos hpos]
    exact div_pos hbpos hpos
  · exfalso
    have hnn : ∀ x ∈ clusters.map Cluster.weight, 0 ≤ x := by
      intro x hx
      rcases List.mem_map.mp hx with ⟨c, hc, rfl⟩
      exact hw c hc
    have hs : (clusters.map Cluster.weight).sum ≤ 0 := by
      rw [← ht]
      exact le_of_not_lt hpos
    have hz : ∀ c ∈ clusters, c.weight = 0 := fun c hc =>
      nonneg_sum_zero _ hnn hs c.weight (List.mem_map_of_mem Cluster.weight hc)
    rw [merge_colors_zero_weights clusters totalW opt hz] at ha
    cases ha

/-! ## Helper lemmas: the reseed step in explicit form -/

theorem resetStep_steal (samples : List RGB) (K : ℕ) (st : PassState)
    (k i₀ : ℕ)
    (hn : samples.length ≠ 0)
    (hk : st.weights k = 0)
    (hi : i₀ < samples.length)
    (hd : ∀ i < samples.length, 0 ≤ st.bestd2 i)
    (hmax : ∀ j < samples.length, st.bestd2 j ≤ st.bestd2 i₀)
    (hfirst : ∀ j < i₀, st.bestd2 j < st.bestd2 i₀)
    (hasn : 0 ≤ st.assign i₀) (hasn2 : st.assign i₀ < (K : ℤ))
    (hwo : 0 < st.weights (st.assign i₀).toNat) :
    resetStep samples K st k =
      { weights := Function.update (Function.update st.weights
          (st.assign i₀).toNat (st.weights (st.assign i₀).toNat - 1)) k
          (Function.update st.weights (st.assign i₀).toNat
            (st.weights (st.assign i₀).toNat - 1) k + 1)
        sr := Function.update (Function.update st.sr (st.assign i₀).toNat
          (st.sr (st.assign i₀).toNat - (samples.getD i₀ default).r)) k
          (Function.update st.sr (st.assign i₀).toNat
            (st.sr (st.assign i₀).toNat - (samples.getD i₀ default).r) k +
            (samples.getD i₀ default).r)
        sg := Function.update (Function.update st.sg (st.assign i₀).toNat
          (st.sg (st.assign i₀).toNat - (samples.getD i₀ default).g)) k
          (Function.update st.sg (st.assign i₀).toNat
            (st.sg (st.assign i₀).toNat - (samples.getD i₀ default).g) k +
            (samples.getD i₀ default).g)
        sb := Function.update (Function.update st.sb (st.assign i₀).toNat
          (st.sb (st.assign i₀).toNat - (samples.getD i₀ default).b)) k
          (Function.update st.sb (st.assign i₀).toNat
            (st.sb (st.assign i₀).toNat - (samples.getD i₀ default).b) k +
            (samples.getD i₀ default).b)
        assign := Function.update st.assign i₀ (k : ℤ)
        bestd2 := st.bestd2
        changed := true } := by
  have hff := findFarthest_eq st.bestd2 samples.length i₀
    (Nat.pos_of_ne_zero hn) hd hi hmax hfirst
  have hnotpos : ¬ st.weights k > 0 := by
    rw [hk]
    exact lt_irrefl 0
  simp only [resetStep]
  rw [if_neg hnotpos, hff]
  dsimp only
  rw [Int.toNat_natCast]
  rw [if_pos (Int.natCast_nonneg i₀), if_pos ⟨hasn, hasn2⟩, if_pos hwo]

/-! ## C5: empty-cluster recovery and no zero-weight output -/

/-- C5: an empty cluster `k` at its reset turn steals exactly the sample
`i₀` that is globally farthest by the recorded best squared distances (the
first index attaining the maximum): the sample is reassigned to `k`, both
affected clusters' weights and channel sums are adjusted, other assignments
are untouched, the round is marked changed; and consequently every output
aggregate of the merger has strictly positive (never zero) weight. -/
theorem reseed_farthest_C5 (samples : List RGB) (K : ℕ) (st : PassState)
    (k i₀ : ℕ) (clusters : List Cluster) (opt : Options) (totalW : ℚ)
    (hn : samples.length ≠ 0)
    (hk : st.weights k = 0)
    (hi : i₀ < samples.length)
    (hd : ∀ i < samples.length, 0 ≤ st.bestd2 i)
    (hmax : ∀ j < samples.length, st.bestd2 j ≤ st.bestd2 i₀)
    (hfirst : ∀ j < i₀, st.bestd2 j < st.bestd2 i₀)
    (hasn : 0 ≤ st.assign i₀) (hasn2 : st.assign i₀ < (K : ℤ))
    (hne : (st.assign i₀).toNat ≠ k)
    (hwo : 0 < st.weights (st.assign i₀).toNat)
    (hw : ∀ c ∈ clusters, 0 ≤ c.weight)
    (ht : totalW = (clusters.map Cluster.weight).sum) :
    ((resetStep samples K st k).changed = true ∧
      (resetStep samples K st k).assign i₀ = (k : ℤ) ∧
      (∀ j, j ≠ i₀ → (resetStep samples K st k).assign j = st.assign j) ∧
      (resetStep samples K st k).weights k = st.weights k + 1 ∧
      (resetStep samples K st k).weights (st.assign i₀).toNat =
        st.weights (st.assign i₀).toNat - 1 ∧
      (resetStep samples K st k).sr k =
        st.sr k + (samples.getD i₀ default).r ∧
      (resetStep samples K st k).sg k =
        st.sg k + (samples.getD i₀ default).g ∧
      (resetStep samples K st k).sb k =
        st.sb k + (samples.getD i₀ default).b ∧
      (resetStep samples K st k).sr (st.assign i₀).toNat =
        st.sr (st.assign i₀).toNat - (samples.getD i₀ default).r ∧
      (resetStep samples K st k).sg (st.assign i₀).toNat =
        st.sg (st.assign i₀).toNat - (samples.getD i₀ default).g ∧
      (resetStep samples K st k).sb (st.assign i₀).toNat =
        st.sb (st.assign i₀).toNat - (samples.getD i₀ default).b) ∧
    (∀ a ∈ merge_colors clusters totalW opt, 0 < a.weight) := by
  have hres := resetStep_steal samples K st k i₀ hn hk hi hd hmax hfirst
    hasn hasn2 hwo
  have hkne : k ≠ (st.assign i₀).toNat := fun h => hne h.symm
  refine ⟨?_, merge_colors_pos clusters opt totalW hw ht⟩
  rw [hres]
  refine ⟨rfl, ?_, ?_, ?_, ?_, ?_, ?_, ?_, ?_, ?_, ?_⟩
  · exact Function.update_same i₀ (k : ℤ) st.assign
  · intro j hj
    exact Function.update_noteq hj (k : ℤ) st.assign
  · dsimp only
    rw [Function.update_same, Function.update_noteq hkne]
  · dsimp only
    rw [Function.update_noteq hne, Function.update_same]
  · dsimp only
    rw [Function.update_same, Function.update_noteq hkne]
  · dsimp only
    rw [Function.update_same, Function.update_noteq hkne]
  · dsimp only
    rw [Function.update_same, Function.update_noteq hkne]
  · dsimp only
    rw [Function.update_noteq hne, Function.update_same]
  · dsimp only
    rw [Function.update_noteq hne, Function.update_same]
  · dsimp only
    rw [Function.update_noteq hne, Function.update_same]

/-- C5 witness: a one-sample state where cluster 1 is empty and cluster 0
holds the sample. -/
theorem reseed_farthest_witness_C5 :
    ((resetStep [⟨1, 1, 1⟩] 2 cexState 1).changed = true ∧
      (resetStep [⟨1, 1, 1⟩] 2 cexState 1).assign 0 = (1 : ℤ) ∧
      (∀ j, j ≠ 0 →
        (resetStep [⟨1, 1, 1⟩] 2 cexState 1).assign j = cexState.assign j) ∧
      (resetStep [⟨1, 1, 1⟩] 2 cexState 1).weights 1 =
        cexState.weights 1 + 1 ∧
      (resetStep [⟨1, 1, 1⟩] 2 cexState 1).weights
          (cexState.assign 0).toNat =
        cexState.weights (cexState.assign 0).toNat - 1 ∧
      (resetStep [⟨1, 1, 1⟩] 2 cexState 1).sr 1 =
        cexState.sr 1 + (([⟨1, 1, 1⟩] : List RGB).getD 0 default).r ∧
      (resetStep [⟨1, 1, 1⟩] 2 cexState 1).sg 1 =
        cexState.sg 1 + (([⟨1, 1, 1⟩] : List RGB).getD 0 default).g ∧
      (resetStep [⟨1, 1, 1⟩] 2 cexState 1).sb 1 =
        cexState.sb 1 + (([⟨1, 1, 1⟩] : List RGB).getD 0 default).b ∧
      (resetStep [⟨1, 1, 1⟩] 2 cexState 1).sr (cexState.assign 0).toNat =
        cexState.sr (cexState.assign 0).toNat -
          (([⟨1, 1, 1⟩] : List RGB).getD 0 default).r ∧
      (resetStep [⟨1, 1, 1⟩] 2 cexState 1).sg (cexState.assign 0).toNat =
        cexState.sg (cexState.assign 0).toNat -
          (([⟨1, 1, 1⟩] : List RGB).getD 0 default).g ∧
      (resetStep [⟨1, 1, 1⟩] 2 cexState 1).sb (cexState.assign 0).toNat =
        cexState.sb (cexState.assign 0).toNat -
          (([⟨1, 1, 1⟩] : List RGB).getD 0 default).b) ∧
    (∀ a ∈ merge_colors [⟨⟨1, 1, 1⟩, 1⟩] 1 defaultOptions, 0 < a.weight) :=
  reseed_farthest_C5 [⟨1, 1, 1⟩] 2 cexState 1 0 [⟨⟨1, 1, 1⟩, 1⟩]
    defaultOptions 1
    (by decide) (by decide) (by decide)
    (fun i _ => le_refl 0) (fun j _ => le_refl 0)
    (fun j hj => absurd hj (Nat.not_lt_zero j))
    (le_refl 0) (by decide) (by decide) (by decide)
    (by intro c hc
        simp only [List.mem_singleton] at hc
        rw [hc]
        norm_num)
    (by simp)

end ExtractColors
